import Mathlib

/-!
Shallow embedding of the icarus chess engine core (Rust), covering the
components referenced by the specification claims:

* icarus-common: squares, pieces, bitboards, direction shifts, lookup tables
  (src/icarus-common/src/{square,piece,bitboard,direction,lookups,move}.rs)
* icarus-board: castling rights, en-passant descriptor, board state, threat
  computation, move generation, legality check, make_move, FEN reading
  (src/icarus-board/src/{castling,ep_file,board,movegen,is_legal,zobrist}.rs)
* build-time attack-table generator reference (src/icarus-board/build.rs)
* engine crate: Score, transposition table, time manager, UCI parser, SEE
  (src/src/{score.rs,search/transposition_table.rs,search/time_manager.rs,
   uci.rs,position.rs,weights.rs})

Machine integers are modelled as Nat (with explicit wrap-around masks where
the Rust code can wrap) and Int for the signed i16 score arithmetic.
Rust functions that can panic on out-of-contract inputs are modelled as total
functions returning a (documented) junk value in the impossible branch, or as
Option-returning functions where the Rust code itself uses Option.
-/

set_option maxRecDepth 4000
set_option maxHeartbeats 800000

namespace Icarus

/-! ## 64-bit arithmetic helpers -/

/-- Mask of 64 one bits; u64 values are Nats below 2^64. -/
def U64MASK : Nat := 2 ^ 64 - 1

/-- Wrapping 64-bit truncation (u64 semantics). -/
def u64 (n : Nat) : Nat := n % 2 ^ 64

/-- Bitwise complement on 64-bit values. -/
def not64 (n : Nat) : Nat := Nat.xor n U64MASK

/-- Wrapping 64-bit multiplication. -/
def mul64 (a b : Nat) : Nat := u64 (a * b)

/-- Wrapping 16-bit truncation to a signed value (i16 semantics). -/
def wrap16 (n : Int) : Int := (n + 2 ^ 15) % 2 ^ 16 - 2 ^ 15

/-! ## Squares, files, ranks, colors, pieces
    (src/icarus-common/src/{square,piece}.rs) -/

/-- File A..H as an index 0..7. -/
abbrev File := Fin 8

/-- Rank 1..8 as an index 0..7. -/
abbrev Rank := Fin 8

/-- Square with index 8*rank + file. -/
abbrev Square := Fin 64

inductive Color where
  | White
  | Black
deriving DecidableEq, Repr

inductive Piece where
  | Pawn
  | Knight
  | Bishop
  | Rook
  | Queen
  | King
deriving DecidableEq, Repr

namespace Color

def idx : Color → Nat
  | White => 0
  | Black => 1

/-- Color::invert / Not. -/
def invert : Color → Color
  | White => Black
  | Black => White

/-- Color::signum: 1 for white, -1 for black. -/
def signum : Color → Int
  | White => 1
  | Black => -1

def from_idx (n : Nat) : Color := if n = 0 then White else Black

end Color

namespace Piece

def idx : Piece → Nat
  | Pawn => 0
  | Knight => 1
  | Bishop => 2
  | Rook => 3
  | Queen => 4
  | King => 5

/-- Piece::from_idx (junk value Pawn outside 0..5; the Rust code panics). -/
def from_idx (n : Nat) : Piece :=
  match n with
  | 0 => Pawn
  | 1 => Knight
  | 2 => Bishop
  | 3 => Rook
  | 4 => Queen
  | _ => King

/-- Piece::all() iteration order. -/
def all : List Piece := [Pawn, Knight, Bishop, Rook, Queen, King]

/-- Piece::from_char (used by move parsing). -/
def from_char (c : Char) : Option Piece :=
  match c.toLower with
  | 'n' => some Knight
  | 'b' => some Bishop
  | 'r' => some Rook
  | 'q' => some Queen
  | 'p' => some Pawn
  | 'k' => some King
  | _ => none

end Piece

namespace Sq

/-- Square::new. -/
def new (f : File) (r : Rank) : Square := ⟨f.val + r.val * 8, by omega⟩

/-- Square::file. -/
def file (sq : Square) : File := ⟨sq.val % 8, Nat.mod_lt _ (by omega)⟩

/-- Square::rank. -/
def rank (sq : Square) : Rank := ⟨sq.val / 8, by omega⟩

/-- Square::try_from_idx. -/
def try_from_idx (n : Nat) : Option Square :=
  if h : n < 64 then some ⟨n, h⟩ else none

/-- Square::from_idx (junk square 0 when out of bounds; the Rust code panics). -/
def from_idx (n : Nat) : Square := (try_from_idx n).getD ⟨0, by omega⟩

/-- File::try_offset / Rank::try_offset combined on a raw index. -/
def try_off8 (v : Fin 8) (d : Int) : Option (Fin 8) :=
  let i : Int := (v.val : Int) + d
  if h : 0 ≤ i ∧ i < 8 then some ⟨i.toNat, by omega⟩ else none

/-- Square::try_offset. -/
def try_offset (sq : Square) (df dr : Int) : Option Square :=
  match try_off8 (file sq) df, try_off8 (rank sq) dr with
  | some f, some r => some (new f r)
  | _, _ => none

/-- Square::parse of a 2-character string such as "e4". -/
def parse (s : String) : Option Square :=
  match s.toList with
  | [f, r] =>
    let f := f.toLower
    if h : 'a'.toNat ≤ f.toNat ∧ f.toNat - 'a'.toNat < 8 ∧
        '1'.toNat ≤ r.toNat ∧ r.toNat - '1'.toNat < 8 then
      some (new ⟨f.toNat - 'a'.toNat, h.2.1⟩ ⟨r.toNat - '1'.toNat, h.2.2.2⟩)
    else none
  | _ => none

end Sq

/-! ## Bitboards (src/icarus-common/src/bitboard.rs) -/

/-- Bitboard: a u64 with bit `8*rank + file` set for each member square. -/
abbrev Bitboard := Nat

namespace BB

def EMPTY : Bitboard := 0

def ALL : Bitboard := U64MASK

/-- A1-H8 diagonal. -/
def MAIN_DIAGONAL : Bitboard := 0x8040201008040201

/-- A8-H1 diagonal. -/
def ANTI_DIAGONAL : Bitboard := 0x0102040810204080

def LIGHT_SQUARES : Bitboard := 0xAA55AA55AA55AA55

def DARK_SQUARES : Bitboard := 0x55AA55AA55AA55AA

/-- Square::bitboard. -/
def sqBB (sq : Square) : Bitboard := 1 <<< sq.val

/-- File::bitboard. -/
def fileBB (f : File) : Bitboard := 0x0101010101010101 <<< f.val

/-- Rank::bitboard. -/
def rankBB (r : Rank) : Bitboard := 0xff <<< (8 * r.val)

/-- Rank::relative_to. -/
def rankRel (r : Rank) (c : Color) : Rank :=
  ⟨Nat.xor r.val (7 * c.idx), by
    have h1 : r.val < 2 ^ 3 := r.isLt
    have h2 : 7 * c.idx < 2 ^ 3 := by rcases c <;> simp [Color.idx]
    simpa using Nat.xor_lt_two_pow h1 h2⟩

/-- Bitboard::contains. -/
def contains (bb : Bitboard) (sq : Square) : Bool := Nat.testBit bb sq.val

/-- Bitboard::invert. -/
def invert (bb : Bitboard) : Bitboard := not64 bb

/-- Bitboard::subtract. -/
def subtract (a b : Bitboard) : Bitboard := Nat.land a (invert b)

/-- Bitboard::is_subset_of. -/
def is_subset_of (a b : Bitboard) : Bool := Nat.land a b = a

/-- Bitboard::is_empty. -/
def is_empty (bb : Bitboard) : Bool := bb = 0

/-- Bitboard::is_non_empty. -/
def is_non_empty (bb : Bitboard) : Bool := !is_empty bb

/-- Bitboard::popcnt (u64 count_ones; bitboards are 64-bit values). -/
def popcnt (bb : Bitboard) : Nat :=
  ((List.range 64).filter (fun i => Nat.testBit bb i)).length

/-- The member squares in ascending index order (BitboardIter's order:
    repeatedly extracting the lowest set bit). -/
def squares (bb : Bitboard) : List Square :=
  (List.finRange 64).filter (fun sq => contains bb sq)

/-- Bitboard::try_next: lowest set square. -/
def try_next (bb : Bitboard) : Option Square := (squares bb).head?

/-- Bitboard::next (junk square 0 on an empty bitboard; the Rust code panics). -/
def next (bb : Bitboard) : Square := (try_next bb).getD ⟨0, by omega⟩

/-! Direction shifts (src/icarus-common/src/direction.rs). -/

/-- shl_general: shift left for nonnegative amounts, right for negative ones. -/
def shl_general (bb : Bitboard) (shift : Int) : Bitboard :=
  if 0 ≤ shift then u64 (bb <<< shift.toNat) else bb >>> (-shift).toNat

/-- horizontal_shl_mask: each byte is 0xff shifted by the file delta. -/
def horizontal_shl_mask (shift : Int) : Bitboard :=
  let byte : Nat :=
    if 0 ≤ shift then Nat.land (0xff <<< shift.toNat) 0xff else 0xff >>> (-shift).toNat
  byte * 0x0101010101010101

/-- shift_bb for a direction with file delta df and rank delta dr. -/
def shift_bb (df dr : Int) (bb : Bitboard) (steps : Int) : Bitboard :=
  let mask := horizontal_shl_mask (df * steps)
  let shift_amt := (8 * dr + df) * steps
  Nat.land (shl_general bb shift_amt) mask

/-- Bitboard::main_diag_for. -/
def main_diag_for (sq : Square) : Bitboard :=
  shift_bb 0 1 MAIN_DIAGONAL (((Sq.rank sq).val : Int) - ((Sq.file sq).val : Int))

/-- Bitboard::anti_diag_for. -/
def anti_diag_for (sq : Square) : Bitboard :=
  shift_bb 0 1 ANTI_DIAGONAL (((Sq.rank sq).val : Int) + ((Sq.file sq).val : Int) - 7)

end BB

/-! ## Lookup tables (src/icarus-common/src/lookups.rs)
    The Rust code precomputes these in const arrays; here they are ordinary
    functions computing the same values. -/

namespace Lookups

open BB

/-- rook_rays. -/
def rook_rays (sq : Square) : Bitboard :=
  Nat.xor (rankBB (Sq.rank sq)) (fileBB (Sq.file sq))

/-- bishop_rays. -/
def bishop_rays (sq : Square) : Bitboard :=
  Nat.xor (main_diag_for sq) (anti_diag_for sq)

/-- Fold a list of (file, rank) offsets from a square into a bitboard. -/
def offsets_bb (sq : Square) (offs : List (Int × Int)) : Bitboard :=
  offs.foldl (fun bb off =>
    match Sq.try_offset sq off.1 off.2 with
    | some t => Nat.lor bb (sqBB t)
    | none => bb) EMPTY

/-- knight_moves. -/
def knight_moves (sq : Square) : Bitboard :=
  offsets_bb sq [(1, 2), (2, 1), (2, -1), (1, -2), (-1, -2), (-2, -1), (-2, 1), (-1, 2)]

/-- king_moves. -/
def king_moves (sq : Square) : Bitboard :=
  offsets_bb sq [(1, 0), (1, 1), (0, 1), (-1, 1), (-1, 0), (-1, -1), (0, -1), (1, -1)]

/-- pawn_pushes. -/
def pawn_pushes (sq : Square) (color : Color) (blockers : Bitboard) : Bitboard :=
  let push_dir := color.signum
  let start_rank := rankRel ⟨1, by omega⟩ color
  let t := subtract (shift_bb 0 1 (sqBB sq) push_dir) blockers
  if (Sq.rank sq).val = start_rank.val then
    Nat.lor t (subtract (shift_bb 0 1 t push_dir) blockers)
  else t

/-- pawn_attacks. -/
def pawn_attacks (sq : Square) (color : Color) : Bitboard :=
  match color with
  | .White => Nat.lor (shift_bb (-1) 1 (sqBB sq) 1) (shift_bb 1 1 (sqBB sq) 1)
  | .Black => Nat.lor (shift_bb (-1) (-1) (sqBB sq) 1) (shift_bb 1 (-1) (sqBB sq) 1)

/-- Auxiliary walk for between_inclusive, stepping from a towards b.
    Fuel 8 suffices: the two squares are at most 7 steps apart. -/
def between_walk : Nat → Square → Square → Int → Int → Bitboard
  | 0, _, _, _, _ => EMPTY
  | fuel + 1, a, b, df, dr =>
    let bb := sqBB a
    if a = b then bb
    else
      match Sq.try_offset a df dr with
      | some a' => Nat.lor bb (between_walk fuel a' b df dr)
      | none => bb

/-- between_inclusive. -/
def between_inclusive (a b : Square) : Bitboard :=
  let df : Int := ((Sq.file b).val : Int) - ((Sq.file a).val : Int)
  let dr : Int := ((Sq.rank b).val : Int) - ((Sq.rank a).val : Int)
  let orth := df = 0 ∨ dr = 0
  let diag := df.natAbs = dr.natAbs
  let bb := Nat.lor (sqBB a) (sqBB b)
  if ¬orth ∧ ¬diag then bb
  else Nat.lor bb (between_walk 8 a b df.sign dr.sign)

/-- between (exclusive of both endpoints). -/
def between (a b : Square) : Bitboard :=
  subtract (between_inclusive a b) (Nat.lor (sqBB a) (sqBB b))

/-- line: the full file/rank/diagonal through two collinear squares. -/
def line (a b : Square) : Bitboard :=
  let df : Int := ((Sq.file b).val : Int) - ((Sq.file a).val : Int)
  let dr : Int := ((Sq.rank b).val : Int) - ((Sq.rank a).val : Int)
  let bb := EMPTY
  let bb := if (Sq.file a).val = (Sq.file b).val then Nat.lor bb (fileBB (Sq.file a)) else bb
  let bb := if (Sq.rank a).val = (Sq.rank b).val then Nat.lor bb (rankBB (Sq.rank a)) else bb
  let bb := if df = dr then Nat.lor bb (main_diag_for a) else bb
  let bb := if df = -dr then Nat.lor bb (anti_diag_for a) else bb
  bb

end Lookups

/-! ## Moves (src/icarus-common/src/move.rs)
    A move is a nonzero bit-packed u16:
    bits 0-5 src, 6-11 dst, 12-13 flag, 14-15 promotion piece (N,B,R,Q). -/

inductive MoveFlag where
  | None
  | Castle
  | EnPassant
  | Promotion
deriving DecidableEq, Repr

namespace MoveFlag

def idx : MoveFlag → Nat
  | None => 0
  | Castle => 1
  | EnPassant => 2
  | Promotion => 3

def from_idx (n : Nat) : MoveFlag :=
  match n with
  | 0 => None
  | 1 => Castle
  | 2 => EnPassant
  | _ => Promotion

end MoveFlag

/-- Move as its underlying u16 value (nonzero for all constructible moves
    since src and dst are always distinct). -/
abbrev Move := Nat

namespace Move

/-- Move::new (no promotion). -/
def new (from_ to_ : Square) (flag : MoveFlag) : Move :=
  from_.val ||| (to_.val <<< 6) ||| (flag.idx <<< 12)

/-- Move::new_promotion. -/
def new_promotion (from_ to_ : Square) (promote_to : Piece) : Move :=
  from_.val ||| (to_.val <<< 6) ||| (MoveFlag.Promotion.idx <<< 12) |||
    ((promote_to.idx - Piece.Knight.idx) <<< 14)

/-- Move::from. -/
def src (mv : Move) : Square := ⟨mv % 64, Nat.mod_lt _ (by omega)⟩

/-- Move::to. -/
def dst (mv : Move) : Square := ⟨(mv >>> 6) % 64, Nat.mod_lt _ (by omega)⟩

/-- Move::flag. -/
def flag (mv : Move) : MoveFlag := MoveFlag.from_idx ((mv >>> 12) % 4)

/-- Move::promotes_to_unchecked. -/
def promotes_to_unchecked (mv : Move) : Piece :=
  Piece.from_idx ((mv >>> 14) % 4 + Piece.Knight.idx)

/-- Move::promotes_to. -/
def promotes_to (mv : Move) : Option Piece :=
  if mv.flag = MoveFlag.Promotion then some mv.promotes_to_unchecked else none

end Move

/-! ## Castling rights (src/icarus-board/src/castling.rs)
    Bit-packed u8: bits 0-2 long file, bit 3 long disabled flag,
    bits 4-6 short file, bit 7 short disabled flag; a nibble holds a valid
    file iff its value is in 0..8. -/

inductive CastlingDirection where
  | Long
  | Short
deriving DecidableEq, Repr

namespace CastlingDirection

/-- The enum discriminant (shift amount into the packed byte). -/
def disc : CastlingDirection → Nat
  | Long => 0
  | Short => 4

/-- CastlingDirection::king_dst (C for long, G for short). -/
def king_dst : CastlingDirection → File
  | Long => ⟨2, by omega⟩
  | Short => ⟨6, by omega⟩

/-- CastlingDirection::rook_dst (D for long, F for short). -/
def rook_dst : CastlingDirection → File
  | Long => ⟨3, by omega⟩
  | Short => ⟨5, by omega⟩

end CastlingDirection

/-- CastlingRights for one side, as the packed u8. -/
abbrev CastlingRights := Nat

namespace CastlingRights

/-- CastlingRights::new. -/
def newCR (long short : Option File) : CastlingRights :=
  let l := match long with | some f => f.val | none => 8
  let s := match short with | some f => f.val | none => 8
  l ||| (s <<< 4)

/-- The default value (no rights). -/
def defaultCR : CastlingRights := newCR none none

/-- CastlingRights::get. -/
def get (r : CastlingRights) (dir : CastlingDirection) : Option File :=
  let v := Nat.land (r >>> dir.disc) 0xf
  if h : v < 8 then some ⟨v, h⟩ else none

/-- CastlingRights::set. -/
def set (r : CastlingRights) (dir : CastlingDirection) (file : Option File) : CastlingRights :=
  let and_mask := Nat.land (not64 (0xf <<< dir.disc)) 0xff
  let new_val := match file with | some f => f.val | none => 8
  Nat.lor (Nat.land r and_mask) (new_val <<< dir.disc)

end CastlingRights

/-! ## En-passant descriptor (src/icarus-board/src/ep_file.rs)
    Packed nonzero u8: bits 0-2 file, bit 3 left-may-take, bit 4
    right-may-take; at least one of bits 3, 4 is always set. -/

abbrev EnPassantFile := Nat

namespace EnPassantFile

/-- EnPassantFile::new. -/
def newEP (file : File) (left right : Bool) : EnPassantFile :=
  file.val ||| (cond left 1 0 <<< 3) ||| (cond right 1 0 <<< 4)

/-- EnPassantFile::file. -/
def file (ep : EnPassantFile) : File := ⟨Nat.land ep 7, by
  have h : Nat.land ep 7 ≤ 7 := Nat.and_le_right
  omega⟩

/-- EnPassantFile::attacker_bb. -/
def attacker_bb (ep : EnPassantFile) (stm : Color) : Bitboard :=
  let rank := BB.rankRel ⟨4, by omega⟩ stm
  let ep_sq := Sq.new ep.file rank
  let bb := BB.EMPTY
  let bb := if Nat.land (ep >>> 3) 1 ≠ 0 then
    Nat.lor bb (BB.sqBB (Sq.from_idx (ep_sq.val - 1))) else bb
  let bb := if Nat.land (ep >>> 4) 1 ≠ 0 then
    Nat.lor bb (BB.sqBB (Sq.from_idx (ep_sq.val + 1))) else bb
  bb

end EnPassantFile

/-! ## Zobrist keys (src/icarus-board/src/zobrist.rs)
    The Rust code fills a process-wide table from a Xoshiro256++ generator
    seeded with a fixed 256-bit key. The board operations below are
    parameterized over an arbitrary key table; `ZOBRIST` instantiates the
    actual generated table. No claim in this development depends on the
    concrete key values. -/

structure Zobrist where
  pieces : Color → Piece → Square → Nat
  black_to_move : Nat
  castlesK : Color → File → Nat
  en_passantK : File → Nat

namespace Zobrist

/-- Zobrist::piece (argument order as in the Rust accessor). -/
def piece (z : Zobrist) (sq : Square) (pt : Piece) (col : Color) : Nat :=
  z.pieces col pt sq

/-- Zobrist::castles. -/
def castles (z : Zobrist) (f : File) (col : Color) : Nat := z.castlesK col f

/-- Zobrist::en_passant. -/
def en_passant (z : Zobrist) (f : File) : Nat := z.en_passantK f

/-- One step of the Xoshiro256++ generator. -/
def xs_next (s : Nat × Nat × Nat × Nat) : Nat × (Nat × Nat × Nat × Nat) :=
  let (s0, s1, s2, s3) := s
  let rotl := fun (x k : Nat) => u64 ((x <<< k) ||| (x >>> (64 - k)))
  let result := u64 (rotl (u64 (s0 + s3)) 23 + s0)
  let t := u64 (s1 <<< 17)
  let s2 := Nat.xor s2 s0
  let s3 := Nat.xor s3 s1
  let s1 := Nat.xor s1 s2
  let s0 := Nat.xor s0 s3
  let s2 := Nat.xor s2 t
  let s3 := rotl s3 45
  (result, (s0, s1, s2, s3))

/-- The fixed 256-bit seed from the source. -/
def seed : Nat × Nat × Nat × Nat :=
  (0x9b388c2766f7a6c3, 0xa7ea07dd648dc636, 0x8b7eb148fafc6178, 0xb5099720c02129c1)

/-- State after n outputs have been drawn. -/
def state_after : Nat → Nat × Nat × Nat × Nat
  | 0 => seed
  | n + 1 => (xs_next (state_after n)).2

/-- The n-th output (0-based) of the seeded generator. -/
def output (n : Nat) : Nat := (xs_next (state_after n)).1

/-- The generated process-wide table. The generation loop draws, per color c:
    384 piece keys (piece-major, square-minor), then per file f the castling
    key followed by the en-passant key. The en-passant slots are written in
    both color iterations, so the surviving values come from the c = Black
    pass. The final draw is the black-to-move key. -/
def ZOBRIST : Zobrist where
  pieces := fun c p sq => output (c.idx * 400 + p.idx * 64 + sq.val)
  black_to_move := output 800
  castlesK := fun c f => output (c.idx * 400 + 384 + 2 * f.val)
  en_passantK := fun f => output (400 + 384 + 2 * f.val + 1)

end Zobrist

/-! ## Board state (src/icarus-board/src/board.rs) -/

structure Board where
  /-- Bitboards per piece type, containing both white and black pieces. -/
  pieces : Piece → Bitboard
  /-- Occupancy bitboards per color. -/
  colors : Color → Bitboard
  /-- Piece type per square. -/
  mailbox : Square → Option Piece
  /-- Castling rights for both sides. -/
  castling_rights : Color → CastlingRights
  /-- En-passant descriptor, when an en-passant capture is available. -/
  en_passant : Option EnPassantFile
  /-- Own pieces pinned to the king. -/
  pinned : Bitboard
  /-- Opponent pieces checking the side-to-move king. -/
  checkers : Bitboard
  /-- Squares attacked by the opponent (seeing through the own king). -/
  attacked : Bitboard
  /-- Halfmove clock (u8). -/
  halfmove_clock : Nat
  /-- Fullmove count (u16), incremented after every black move. -/
  fullmove_count : Nat
  /-- Side to move. -/
  stm : Color
  /-- Zobrist hash of the position. -/
  hash : Nat
  /-- Zobrist hash of the pawns. -/
  pawn_hash : Nat
  /-- Zobrist hash of knights, bishops and kings. -/
  minor_hash : Nat
  /-- Zobrist hash of rooks and queens. -/
  major_hash : Nat
  /-- Zobrist hashes of all non-pawns of each color. -/
  nonpawn_hash : Color → Nat

namespace Board

/-- Board::occupied. -/
def occupied (b : Board) : Bitboard :=
  Nat.lor (b.colors Color.White) (b.colors Color.Black)

/-- Board::occupied_by. -/
def occupied_by (b : Board) (c : Color) : Bitboard := b.colors c

/-- Board::colored_pieces. -/
def colored_pieces (b : Board) (p : Piece) (c : Color) : Bitboard :=
  Nat.land (b.pieces p) (b.colors c)

/-- Board::piece_on. -/
def piece_on (b : Board) (sq : Square) : Option Piece := b.mailbox sq

/-- Board::colored_piece_on. -/
def colored_piece_on (b : Board) (sq : Square) (c : Color) : Option Piece :=
  (b.mailbox sq).filter (fun _ => BB.contains (b.colors c) sq)

/-- Board::king. -/
def king (b : Board) (c : Color) : Square := BB.next (b.colored_pieces Piece.King c)

/-- Board::orth_sliders. -/
def orth_sliders (b : Board) (c : Color) : Bitboard :=
  Nat.land (b.colors c) (Nat.lor (b.pieces Piece.Rook) (b.pieces Piece.Queen))

/-- Board::diag_sliders. -/
def diag_sliders (b : Board) (c : Color) : Bitboard :=
  Nat.land (b.colors c) (Nat.lor (b.pieces Piece.Bishop) (b.pieces Piece.Queen))

/-- Board::is_tactic. -/
def is_tactic (b : Board) (mv : Move) : Bool :=
  mv.flag = MoveFlag.EnPassant ∨ mv.flag = MoveFlag.Promotion ∨
    BB.contains (b.occupied_by b.stm.invert) mv.dst

/-- Board::is_quiet. -/
def is_quiet (b : Board) (mv : Move) : Bool := !b.is_tactic mv

/-- Board::toggle_square, parameterized by the Zobrist table. -/
def toggle_square (z : Zobrist) (b : Board) (sq : Square) (color : Color)
    (piece : Piece) : Board :=
  let key := z.piece sq piece color
  let b := { b with
    pieces := fun p => if p = piece then Nat.xor (b.pieces p) (BB.sqBB sq) else b.pieces p
    colors := fun c => if c = color then Nat.xor (b.colors c) (BB.sqBB sq) else b.colors c
    hash := Nat.xor b.hash key }
  let b := match piece with
    | Piece.Pawn => { b with pawn_hash := Nat.xor b.pawn_hash key }
    | Piece.Knight | Piece.Bishop | Piece.King =>
        { b with minor_hash := Nat.xor b.minor_hash key }
    | Piece.Rook | Piece.Queen => { b with major_hash := Nat.xor b.major_hash key }
  if piece ≠ Piece.Pawn then
    { b with nonpawn_hash := fun c =>
        if c = color then Nat.xor (b.nonpawn_hash c) key else b.nonpawn_hash c }
  else b

/-- Board::set_en_passant. -/
def set_en_passant (z : Zobrist) (b : Board) (f : Option EnPassantFile) : Board :=
  let b' := { b with en_passant := f }
  let b' := match b.en_passant with
    | some old => { b' with hash := Nat.xor b'.hash (z.en_passant old.file) }
    | none => b'
  match f with
  | some new_ => { b' with hash := Nat.xor b'.hash (z.en_passant new_.file) }
  | none => b'

/-- Board::set_castles. -/
def set_castles (z : Zobrist) (b : Board) (color : Color) (dir : CastlingDirection)
    (file : Option File) : Board :=
  let b' := match (b.castling_rights color).get dir with
    | some old => { b with hash := Nat.xor b.hash (z.castles old color) }
    | none => b
  let b' := match file with
    | some new_ => { b' with hash := Nat.xor b'.hash (z.castles new_ color) }
    | none => b'
  { b' with castling_rights := fun c =>
      if c = color then (b'.castling_rights c).set dir file else b'.castling_rights c }

end Board

/-! ## Sliding attacks (src/icarus-board/build.rs, reference generator)
    The board crate reads these from build-time generated tables; the tables
    are filled from the ray walk below, which is therefore the reference
    definition of the sliding attacks used throughout the embedding. -/

namespace Attacks

/-- Ray walk in direction (df, dr), stopping on (and including) the first
    blocker. Fuel 8 suffices: a ray has at most 7 squares. -/
def walkAux : Nat → Square → Int → Int → Bitboard → Bitboard
  | 0, _, _, _, _ => BB.EMPTY
  | fuel + 1, sq, df, dr, blockers =>
    if BB.contains blockers sq then BB.EMPTY
    else
      match Sq.try_offset sq df dr with
      | some sq' => Nat.lor (BB.sqBB sq') (walkAux fuel sq' df dr blockers)
      | none => BB.EMPTY

/-- walk from build.rs. -/
def walk (sq : Square) (df dr : Int) (blockers : Bitboard) : Bitboard :=
  walkAux 8 sq df dr blockers

/-- rook_moves from build.rs: the reference the attack tables are filled
    from. It is only ever applied to blocker sets that are subsets of
    rook_mask sq (which exclude sq itself). -/
def rook_moves_ref (sq : Square) (blockers : Bitboard) : Bitboard :=
  Nat.lor (Nat.lor (walk sq 1 0 blockers) (walk sq 0 1 blockers))
    (Nat.lor (walk sq (-1) 0 blockers) (walk sq 0 (-1) blockers))

/-- bishop_moves from build.rs (reference; same remark as rook_moves_ref). -/
def bishop_moves_ref (sq : Square) (blockers : Bitboard) : Bitboard :=
  Nat.lor (Nat.lor (walk sq 1 1 blockers) (walk sq 1 (-1) blockers))
    (Nat.lor (walk sq (-1) 1 blockers) (walk sq (-1) (-1) blockers))

/-- rook_mask from build.rs. -/
def rook_mask (sq : Square) : Bitboard :=
  let rank_inner := BB.subtract (BB.rankBB (Sq.rank sq))
    (Nat.lor (BB.fileBB ⟨0, by omega⟩) (BB.fileBB ⟨7, by omega⟩))
  let file_inner := BB.subtract (BB.fileBB (Sq.file sq))
    (Nat.lor (BB.rankBB ⟨0, by omega⟩) (BB.rankBB ⟨7, by omega⟩))
  BB.subtract (Nat.lor rank_inner file_inner) (BB.sqBB sq)

/-- bishop_mask from build.rs. -/
def bishop_mask (sq : Square) : Bitboard :=
  BB.subtract (BB.subtract (BB.subtract (BB.subtract (Lookups.bishop_rays sq)
    (BB.rankBB ⟨0, by omega⟩)) (BB.rankBB ⟨7, by omega⟩))
    (BB.fileBB ⟨0, by omega⟩)) (BB.fileBB ⟨7, by omega⟩)

/-- The rook_moves attack query of the board crate. Both generated table
    paths reduce the blocker set to its intersection with the per-square mask
    (the magic index ORs in the mask complement; the PEXT index extracts only
    mask bits) and return the table entry filled with rook_moves_ref on that
    subset. -/
def rook_moves (sq : Square) (blockers : Bitboard) : Bitboard :=
  rook_moves_ref sq (Nat.land blockers (rook_mask sq))

/-- The bishop_moves attack query of the board crate (same remark). -/
def bishop_moves (sq : Square) (blockers : Bitboard) : Bitboard :=
  bishop_moves_ref sq (Nat.land blockers (bishop_mask sq))

/-- Index of the lowest set bit (u64 trailing_zeros; 64 on zero input). -/
def tzc (m : Nat) : Nat := ((List.range 64).find? (fun i => Nat.testBit m i)).getD 64

/-- pdep fallback from build.rs, recursing once per set mask bit: deposit the
    low bits of n into the set positions of mask, low to high. -/
def pdepAux : Nat → Nat → Nat → Nat
  | 0, _, _ => 0
  | k + 1, n, mask =>
    let j := tzc mask
    Nat.lor ((Nat.land n 1) <<< j) (pdepAux k (n >>> 1) (Nat.xor mask (1 <<< j)))

def pdep (n mask : Nat) : Nat := pdepAux (BB.popcnt mask) n mask

/-- pext fallback from build.rs, recursing once per set mask bit: extract the
    bits of n at the set positions of mask, compacted low to high. -/
def pextAux : Nat → Nat → Nat → Nat
  | 0, _, _ => 0
  | k + 1, n, mask =>
    let j := tzc mask
    Nat.lor (Nat.land (n >>> j) 1) ((pextAux k n (Nat.xor mask (1 <<< j))) <<< 1)

def pext (n mask : Nat) : Nat := pextAux (BB.popcnt mask) n mask

end Attacks

/-! ## Move generation (src/icarus-board/src/movegen.rs)
    The Rust generator pushes PieceMoves batches through a visitor; here the
    visitor is replaced by list concatenation in the same emission order. -/

/-- A batch of moves of one piece from one square (PieceMoves in move.rs). -/
structure PieceMoves where
  move_flag : MoveFlag
  piece : Piece
  from_ : Square
  to_ : Bitboard
deriving Repr

namespace PieceMoves

/-- PieceMovesIter expansion order: destinations in ascending square order;
    a promotion batch yields queen, rook, bishop, knight per destination. -/
def toMoves (pm : PieceMoves) : List Move :=
  (BB.squares pm.to_).flatMap (fun dst =>
    if pm.move_flag = MoveFlag.Promotion then
      [Piece.Queen, Piece.Rook, Piece.Bishop, Piece.Knight].map
        (fun p => Move.new_promotion pm.from_ dst p)
    else [Move.new pm.from_ dst pm.move_flag])

end PieceMoves

namespace Board

open Lookups Attacks

/-- Board::targets with the IN_CHECK and WHITE template parameters explicit. -/
def targets (b : Board) (in_check : Bool) (stm : Color) : Bitboard :=
  let bb := if in_check then
    let checker := BB.next b.checkers
    let kg := b.king stm
    between_inclusive checker kg
  else BB.ALL
  BB.subtract bb (b.colors stm)

/-- Rank::R7.relative_to etc. used below. -/
def relRank (n : Nat) (h : n < 8) (c : Color) : Rank := BB.rankRel ⟨n, h⟩ c

/-- Board::pawn_noisies. -/
def pawn_noisies (b : Board) (stm : Color) (tg : Bitboard) : List PieceMoves :=
  let push_dir := stm.signum
  let our_pawns := b.colored_pieces Piece.Pawn stm
  let our_king := b.king stm
  let capture_targets := Nat.land tg (b.colors stm.invert)
  -- Up-left captures: pinned pawns off the king's anti-diagonal may not take.
  let upleft :=
    let pinned_pawns := Nat.land b.pinned (BB.invert (BB.anti_diag_for our_king))
    (BB.squares (Nat.land (Nat.land (BB.shift_bb 1 (-1) capture_targets push_dir) our_pawns)
        (BB.invert pinned_pawns))).map (fun from_ =>
      let flag := if (Sq.rank from_).val = (relRank 6 (by omega) stm).val
        then MoveFlag.Promotion else MoveFlag.None
      PieceMoves.mk flag Piece.Pawn from_ (BB.shift_bb (-1) 1 (BB.sqBB from_) push_dir))
  -- Up-right captures: pinned pawns off the king's main diagonal may not take.
  let upright :=
    let pinned_pawns := Nat.land b.pinned (BB.invert (BB.main_diag_for our_king))
    (BB.squares (Nat.land (Nat.land (BB.shift_bb (-1) (-1) capture_targets push_dir) our_pawns)
        (BB.invert pinned_pawns))).map (fun from_ =>
      let flag := if (Sq.rank from_).val = (relRank 6 (by omega) stm).val
        then MoveFlag.Promotion else MoveFlag.None
      PieceMoves.mk flag Piece.Pawn from_ (BB.shift_bb 1 1 (BB.sqBB from_) push_dir))
  -- Promoting pushes: pinned pawns off the king's file may not push.
  let promo :=
    let pinned_pawns := Nat.land b.pinned (BB.invert (BB.fileBB (Sq.file our_king)))
    let promo_push_targets := Nat.land
      (Nat.land (BB.rankBB (relRank 7 (by omega) stm)) (BB.invert (b.colors stm.invert))) tg
    (BB.squares (Nat.land (Nat.land (BB.shift_bb 0 (-1) promo_push_targets push_dir) our_pawns)
        (BB.invert pinned_pawns))).map (fun from_ =>
      PieceMoves.mk MoveFlag.Promotion Piece.Pawn from_
        (BB.shift_bb 0 1 (BB.sqBB from_) push_dir))
  -- En passant: legality was precalculated into the descriptor.
  let ep := match b.en_passant with
    | some ep =>
      let to_ := Sq.new ep.file (relRank 5 (by omega) stm)
      (BB.squares (ep.attacker_bb stm)).map (fun from_ =>
        PieceMoves.mk MoveFlag.EnPassant Piece.Pawn from_ (BB.sqBB to_))
    | none => []
  upleft ++ upright ++ promo ++ ep

/-- Board::pawn_quiets. -/
def pawn_quiets (b : Board) (stm : Color) (tg : Bitboard) : List PieceMoves :=
  let push_dir := stm.signum
  let our_pawns := b.colored_pieces Piece.Pawn stm
  let our_king := b.king stm
  let push_targets := Nat.land (BB.invert (BB.rankBB (relRank 7 (by omega) stm)))
    (BB.invert b.occupied)
  let pinned_pawns := Nat.land b.pinned (BB.invert (BB.fileBB (Sq.file our_king)))
  let single_push_from := Nat.land (Nat.land (BB.shift_bb 0 (-1) push_targets push_dir) our_pawns)
    (BB.invert pinned_pawns)
  let double_push_from := Nat.land (Nat.land (BB.rankBB (relRank 1 (by omega) stm))
    single_push_from) (BB.shift_bb 0 (-1) push_targets (2 * push_dir))
  let singles := (BB.squares (Nat.land single_push_from
      (BB.shift_bb 0 (-1) tg push_dir))).map (fun from_ =>
    PieceMoves.mk MoveFlag.None Piece.Pawn from_ (BB.shift_bb 0 1 (BB.sqBB from_) push_dir))
  let doubles := (BB.squares (Nat.land double_push_from
      (BB.shift_bb 0 (-1) tg (2 * push_dir)))).map (fun from_ =>
    PieceMoves.mk MoveFlag.None Piece.Pawn from_
      (BB.sqBB (Sq.new (Sq.file from_) (relRank 3 (by omega) stm))))
  singles ++ doubles

/-- Board::knight_moves (generator section). -/
def knight_moves_gen (b : Board) (tg : Bitboard) : List PieceMoves :=
  (BB.squares (Nat.land (b.colored_pieces Piece.Knight b.stm) (BB.invert b.pinned))).filterMap
    (fun from_ =>
      let to_ := Nat.land (knight_moves from_) tg
      if BB.is_non_empty to_ then some (PieceMoves.mk MoveFlag.None Piece.Knight from_ to_)
      else none)

/-- Board::sliders. -/
def sliders_gen (b : Board) (tg : Bitboard) (sliders : Bitboard)
    (moves : Square → Bitboard → Bitboard) : List PieceMoves :=
  let from_bb := Nat.land (b.colors b.stm) sliders
  let blockers := b.occupied
  let our_king := b.king b.stm
  let unpinned := (BB.squares (Nat.land from_bb (BB.invert b.pinned))).filterMap (fun sq =>
    let to_ := Nat.land (moves sq blockers) tg
    if BB.is_non_empty to_ then
      some (PieceMoves.mk MoveFlag.None ((b.piece_on sq).getD Piece.Pawn) sq to_)
    else none)
  let pinned := (BB.squares (Nat.land from_bb b.pinned)).filterMap (fun sq =>
    let ray := line our_king sq
    let to_ := Nat.land (Nat.land (moves sq blockers) tg) ray
    if BB.is_non_empty to_ then
      some (PieceMoves.mk MoveFlag.None ((b.piece_on sq).getD Piece.Pawn) sq to_)
    else none)
  unpinned ++ pinned

/-- Board::diag_slider_moves. -/
def diag_slider_moves (b : Board) (tg : Bitboard) : List PieceMoves :=
  b.sliders_gen tg (Nat.lor (b.pieces Piece.Queen) (b.pieces Piece.Bishop)) bishop_moves

/-- Board::orth_slider_moves. -/
def orth_slider_moves (b : Board) (tg : Bitboard) : List PieceMoves :=
  b.sliders_gen tg (Nat.lor (b.pieces Piece.Queen) (b.pieces Piece.Rook)) rook_moves

/-- Board::king_moves (generator section), castles included unless in check. -/
def king_moves_gen (b : Board) (in_check : Bool) : List PieceMoves :=
  let our_king := b.king b.stm
  let regular :=
    let to_ := Nat.land (Nat.land (king_moves our_king) (BB.invert b.attacked))
      (BB.invert (b.colors b.stm))
    if BB.is_non_empty to_ then [PieceMoves.mk MoveFlag.None Piece.King our_king to_] else []
  let castles :=
    if ¬in_check then
      let rank := relRank 0 (by omega) b.stm
      [CastlingDirection.Long, CastlingDirection.Short].filterMap (fun dir =>
        match (b.castling_rights b.stm).get dir with
        | some rook_file =>
          let king_dst := Sq.new dir.king_dst rank
          let rook_dst := Sq.new dir.rook_dst rank
          let rook_sq := Sq.new rook_file rank
          -- A pinned rook blocks castling (only possible in Chess960).
          if BB.contains b.pinned rook_sq then none
          else
            let must_be_safe := between_inclusive our_king king_dst
            let must_be_empty := Nat.lor (Nat.lor must_be_safe
              (between_inclusive our_king rook_sq)) (BB.sqBB rook_dst)
            let blockers := Nat.xor (Nat.xor b.occupied (BB.sqBB our_king)) (BB.sqBB rook_sq)
            if BB.is_empty (Nat.land must_be_empty blockers) ∧
                BB.is_empty (Nat.land must_be_safe b.attacked) then
              some (PieceMoves.mk MoveFlag.Castle Piece.King our_king (BB.sqBB rook_sq))
            else none
        | none => none)
    else []
  regular ++ castles

/-- Board::gen_moves_impl. -/
def gen_moves_impl (b : Board) (in_check : Bool) (stm : Color) : List PieceMoves :=
  let tg := b.targets in_check stm
  b.pawn_noisies stm tg ++ b.pawn_quiets stm tg ++ b.knight_moves_gen tg ++
    b.orth_slider_moves tg ++ b.diag_slider_moves tg ++ b.king_moves_gen in_check

/-- Board::gen_moves, dispatching on side to move and check count. -/
def gen_moves (b : Board) : List PieceMoves :=
  match BB.popcnt b.checkers with
  | 0 => b.gen_moves_impl false b.stm
  | 1 => b.gen_moves_impl true b.stm
  | _ => b.king_moves_gen true

/-- All legal moves as single Move values, in emission order. -/
def gen_all_moves (b : Board) : List Move :=
  (b.gen_moves).flatMap PieceMoves.toMoves

/-- Board::is_legal_thorough: membership in the generated move list. -/
def is_legal_thorough (b : Board) (mv : Move) : Bool :=
  (b.gen_all_moves).contains mv

/-- Board::calc_threats: recompute checkers, pinned and attacked. -/
def calc_threats (b : Board) : Board :=
  let our_king := b.king b.stm
  let blockers := b.occupied
  let push_dir := b.stm.signum
  let their_pawns := b.colored_pieces Piece.Pawn b.stm.invert
  let their_orth := b.orth_sliders b.stm.invert
  let their_diag := b.diag_sliders b.stm.invert
  let checkers := BB.EMPTY
  let attacked := Nat.lor (BB.shift_bb (-1) (-1) their_pawns push_dir)
    (BB.shift_bb 1 (-1) their_pawns push_dir)
  let attacked := Nat.lor attacked (king_moves (b.king b.stm.invert))
  let (checkers, attacked) := (BB.squares (b.colored_pieces Piece.Knight b.stm.invert)).foldl
    (fun (ca : Bitboard × Bitboard) knight =>
      let moves := knight_moves knight
      let c := if BB.contains moves our_king then Nat.lor ca.1 (BB.sqBB knight) else ca.1
      (c, Nat.lor ca.2 moves)) (checkers, attacked)
  let (checkers, attacked) := (BB.squares their_orth).foldl
    (fun (ca : Bitboard × Bitboard) orth =>
      let moves := rook_moves orth (Nat.xor blockers (BB.sqBB our_king))
      let c := if BB.contains moves our_king then Nat.lor ca.1 (BB.sqBB orth) else ca.1
      (c, Nat.lor ca.2 moves)) (checkers, attacked)
  let (checkers, attacked) := (BB.squares their_diag).foldl
    (fun (ca : Bitboard × Bitboard) diag =>
      let moves := bishop_moves diag (Nat.xor blockers (BB.sqBB our_king))
      let c := if BB.contains moves our_king then Nat.lor ca.1 (BB.sqBB diag) else ca.1
      (c, Nat.lor ca.2 moves)) (checkers, attacked)
  let checkers := Nat.lor checkers (Nat.land (pawn_attacks our_king b.stm) their_pawns)
  let pinned := (BB.squares (Nat.land (rook_rays our_king) their_orth)).foldl
    (fun p orth =>
      let btw := Nat.land (between orth our_king) blockers
      if BB.popcnt btw = 1 then Nat.lor p btw else p) BB.EMPTY
  let pinned := (BB.squares (Nat.land (bishop_rays our_king) their_diag)).foldl
    (fun p diag =>
      let btw := Nat.land (between diag our_king) blockers
      if BB.popcnt btw = 1 then Nat.lor p btw else p) pinned
  { b with checkers := checkers, attacked := attacked, pinned := pinned }

/-- Board::calc_ep_file: record the en-passant file after a double push onto
    `file`, with per-attacker slider-safety simulation. -/
def calc_ep_file (z : Zobrist) (b : Board) (file : File) : Board :=
  let victim := Sq.new file (relRank 4 (by omega) b.stm)
  let attacker_dst := Sq.new file (relRank 5 (by omega) b.stm)
  let our_pawns := b.colored_pieces Piece.Pawn b.stm
  let our_king := b.king b.stm
  let attackers := Nat.land our_pawns (pawn_attacks attacker_dst b.stm.invert)
  if BB.is_empty attackers then b
  else
    let lr := (BB.squares attackers).foldl (fun (lr : Bool × Bool) attacker =>
      let blockers := Nat.xor (Nat.xor (Nat.xor b.occupied (BB.sqBB attacker))
        (BB.sqBB attacker_dst)) (BB.sqBB victim)
      let orth := b.orth_sliders b.stm.invert
      let diag := b.diag_sliders b.stm.invert
      let orth_unsafe := (BB.squares (Nat.land (rook_rays our_king) orth)).any
        (fun o => BB.is_empty (Nat.land blockers (between our_king o)))
      let diag_unsafe := (BB.squares (Nat.land (bishop_rays our_king) diag)).any
        (fun d => BB.is_empty (Nat.land blockers (between our_king d)))
      if orth_unsafe ∨ diag_unsafe then lr
      else if (Sq.file attacker).val < (Sq.file victim).val then (true, lr.2)
      else (lr.1, true)) (false, false)
    if lr.1 ∨ lr.2 then
      b.set_en_passant z (some (EnPassantFile.newEP file lr.1 lr.2))
    else b

/-- Revoke the castling right of `color` in a direction whose stored file
    matches `f` (the two sequential ifs of make_move's capture and rook-move
    handling). -/
def revoke_matching (z : Zobrist) (b : Board) (color : Color) (f : File) : Board :=
  [CastlingDirection.Long, CastlingDirection.Short].foldl (fun (b : Board) dir =>
    if some f = (b.castling_rights color).get dir then
      b.set_castles z color dir none
    else b) b

/-- The capture handling of make_move: toggle off a non-castle victim and
    revoke the opponent's castling right if a rook was taken on the back
    rank. -/
def mm_capture (z : Zobrist) (b : Board) (to_ : Square) (flag : MoveFlag) : Board :=
  match b.piece_on to_ with
  | some victim_piece =>
    if flag ≠ MoveFlag.Castle then
      let b := b.toggle_square z to_ b.stm.invert victim_piece
      let their_back_rank := relRank 7 (by omega) b.stm
      if (Sq.rank to_).val = their_back_rank.val then
        revoke_matching z b b.stm.invert (Sq.file to_)
      else b
    else b
  | none => b

/-- The per-flag piece movement of make_move, returning the updated board
    and the pending double-push file. -/
def mm_apply (z : Zobrist) (b : Board) (from_ to_ : Square) (flag : MoveFlag)
    (piece promotion : Piece) : Board × Option File :=
  match flag with
  | MoveFlag.None =>
    let b := b.toggle_square z from_ b.stm piece
    let b := b.toggle_square z to_ b.stm piece
    let b := { b with mailbox := fun s =>
      (if s = to_ then some piece else if s = from_ then none else b.mailbox s) }
    (match piece with
    | Piece.King =>
      let b := b.set_castles z b.stm CastlingDirection.Long none
      let b := b.set_castles z b.stm CastlingDirection.Short none
      (b, none)
    | Piece.Rook =>
      let back_rank := relRank 0 (by omega) b.stm
      if (Sq.rank from_).val = back_rank.val then
        (revoke_matching z b b.stm (Sq.file from_), none)
      else (b, none)
    | Piece.Pawn =>
      if Nat.xor (Sq.rank from_).val (Sq.rank to_).val = 2 then
        (b, some (Sq.file from_))
      else (b, none)
    | _ => (b, none))
  | MoveFlag.Castle =>
    let dir := if (Sq.file to_).val < (Sq.file from_).val then
      CastlingDirection.Long else CastlingDirection.Short
    let rook_from := to_
    let king_to := Sq.new dir.king_dst (Sq.rank from_)
    let rook_to := Sq.new dir.rook_dst (Sq.rank from_)
    let b := b.toggle_square z rook_from b.stm Piece.Rook
    let b := b.toggle_square z rook_to b.stm Piece.Rook
    let b := b.toggle_square z from_ b.stm Piece.King
    let b := b.toggle_square z king_to b.stm Piece.King
    -- Both origin squares are cleared before both destinations are set:
    -- in FRC the king may land on the rook's origin square.
    let b := { b with mailbox := fun s =>
      (if s = king_to then some Piece.King else if s = rook_to then some Piece.Rook
        else if s = rook_from ∨ s = from_ then none else b.mailbox s) }
    let b := b.set_castles z b.stm CastlingDirection.Long none
    let b := b.set_castles z b.stm CastlingDirection.Short none
    (b, none)
  | MoveFlag.EnPassant =>
    let target_sq := Sq.new (Sq.file to_) (Sq.rank from_)
    let b := b.toggle_square z from_ b.stm Piece.Pawn
    let b := b.toggle_square z to_ b.stm Piece.Pawn
    let b := b.toggle_square z target_sq b.stm.invert Piece.Pawn
    let b := { b with mailbox := fun s =>
      (if s = to_ then some Piece.Pawn else if s = from_ ∨ s = target_sq then none
        else b.mailbox s) }
    (b, none)
  | MoveFlag.Promotion =>
    let b := b.toggle_square z from_ b.stm Piece.Pawn
    let b := b.toggle_square z to_ b.stm promotion
    let b := { b with mailbox := fun s =>
      (if s = to_ then some promotion else if s = from_ then none else b.mailbox s) }
    (b, none)

/-- The first bookkeeping steps of make_move: halfmove and fullmove counter
    updates, then clearing of the en-passant descriptor. -/
def mm_prelude (z : Zobrist) (b : Board) : Board :=
  let b := { b with halfmove_clock := (b.halfmove_clock + 1) % 256 }
  let b := { b with fullmove_count :=
    (b.fullmove_count + if b.stm = Color.Black then 1 else 0) % 65536 }
  b.set_en_passant z none

/-- The tail of make_move: toggle the side to move, recompute the
    en-passant descriptor after a double push, recompute threats. -/
def mm_finish (z : Zobrist) (b : Board) (double_push_file : Option File) : Board :=
  let b := { b with stm := b.stm.invert, hash := Nat.xor b.hash z.black_to_move }
  let b := match double_push_file with
    | some ep => b.calc_ep_file z ep
    | none => b
  b.calc_threats

/-- Board::make_move, parameterized by the Zobrist table. Passing a move from
    an empty square makes the Rust code panic; here the board is returned
    unchanged in that out-of-contract case. -/
def make_move (z : Zobrist) (b : Board) (mov : Move) : Board :=
  let from_ := mov.src
  let to_ := mov.dst
  let flag := mov.flag
  let promotion := mov.promotes_to_unchecked
  match b.piece_on from_ with
  | none => b
  | some piece =>
    let b := mm_prelude z b
    let victim := b.piece_on to_
    let b := if piece = Piece.Pawn ∨ (victim.isSome ∧ flag ≠ MoveFlag.Castle) then
      { b with halfmove_clock := 0 } else b
    let b := mm_capture z b to_ flag
    let st := mm_apply z b from_ to_ flag piece promotion
    mm_finish z st.1 st.2

end Board

/-! ## Legality check (src/icarus-board/src/is_legal.rs) -/

namespace Board

open Lookups Attacks

/-- Board::is_legal_en_passant. -/
def is_legal_en_passant (b : Board) (mv : Move) : Bool :=
  match b.en_passant with
  | some ep_file =>
    mv.flag = MoveFlag.EnPassant ∧
      BB.contains (ep_file.attacker_bb b.stm) mv.src ∧
      mv.dst = Sq.new ep_file.file (relRank 5 (by omega) b.stm)
  | none => false

/-- Board::is_legal_castle. -/
def is_legal_castle (b : Board) (mv : Move) : Bool :=
  let from_ := mv.src
  let to_ := mv.dst
  if b.colored_piece_on from_ b.stm ≠ some Piece.King then false
  else
    match [CastlingDirection.Long, CastlingDirection.Short].find?
        (fun dir => (b.castling_rights b.stm).get dir = some (Sq.file to_)) with
    | none => false
    | some dir =>
      -- A pinned rook blocks castling (only possible in Chess960).
      if BB.contains b.pinned to_ then false
      else
        let king_dst := Sq.new dir.king_dst (Sq.rank from_)
        let rook_dst := Sq.new dir.rook_dst (Sq.rank from_)
        let must_be_safe := between_inclusive from_ king_dst
        let must_be_empty := Nat.lor (Nat.lor must_be_safe (between_inclusive from_ to_))
          (BB.sqBB rook_dst)
        let blockers := Nat.xor (Nat.xor b.occupied (BB.sqBB from_)) (BB.sqBB to_)
        BB.is_empty (Nat.land must_be_empty blockers) ∧
          BB.is_empty (Nat.land must_be_safe b.attacked)

/-- Board::is_legal_evasion. -/
def is_legal_evasion (b : Board) (mv : Move) : Bool :=
  if b.colored_piece_on mv.src b.stm ≠ some Piece.King then false
  else
    mv.flag = MoveFlag.None ∧
      BB.contains (BB.subtract (king_moves mv.src)
        (Nat.lor (b.occupied_by b.stm) b.attacked)) mv.dst

/-- Board::is_legal_no_check. -/
def is_legal_no_check (b : Board) (mv : Move) : Bool :=
  let from_ := mv.src
  let to_ := mv.dst
  let flag := mv.flag
  match b.colored_piece_on from_ b.stm with
  | none => false
  | some piece =>
    let our_king := b.king b.stm
    let blockers := b.occupied
    let tg := BB.invert (b.occupied_by b.stm)
    if flag = MoveFlag.Castle then b.is_legal_castle mv
    else if flag = MoveFlag.EnPassant then b.is_legal_en_passant mv
    else if flag = MoveFlag.Promotion ∧ piece ≠ Piece.Pawn then false
    else
    -- Only castling may "capture" a friendly piece, and it was handled above.
    if ¬BB.contains tg to_ then false
    else if BB.contains b.pinned from_ ∧ ¬BB.contains (line our_king from_) to_ then false
    else
      match piece with
      | Piece.Pawn =>
        ((Sq.rank to_).val ≠ (relRank 7 (by omega) b.stm).val ∨ flag = MoveFlag.Promotion) ∧
          (BB.contains (Nat.land (pawn_attacks from_ b.stm) (b.occupied_by b.stm.invert)) to_ ∨
            BB.contains (pawn_pushes from_ b.stm blockers) to_)
      | Piece.Knight => BB.contains (knight_moves from_) to_
      | Piece.Bishop => BB.contains (bishop_moves from_ blockers) to_
      | Piece.Rook => BB.contains (rook_moves from_ blockers) to_
      | Piece.Queen =>
        BB.contains (Nat.lor (bishop_moves from_ blockers) (rook_moves from_ blockers)) to_
      | Piece.King => BB.contains (Nat.land (king_moves from_) (BB.invert b.attacked)) to_

/-- Board::is_legal_check (exactly one checker). -/
def is_legal_check (b : Board) (mv : Move) : Bool :=
  let from_ := mv.src
  let to_ := mv.dst
  let flag := mv.flag
  match b.colored_piece_on from_ b.stm with
  | none => false
  | some Piece.King => b.is_legal_evasion mv
  | some piece =>
    if flag = MoveFlag.Promotion ∧
        (piece ≠ Piece.Pawn ∨ (Sq.rank to_).val ≠ (relRank 7 (by omega) b.stm).val) then false
    else if flag = MoveFlag.Castle then false
    else
      let checker := BB.next b.checkers
      let our_king := b.king b.stm
      let tg := Nat.lor (between our_king checker) (BB.sqBB checker)
      let blockers := b.occupied
      if ¬BB.contains tg to_ then
        -- Off-target moves can only be the en passant capture of the
        -- double-pushed checker.
        (match b.en_passant with
          | some ep => decide (checker = Sq.new ep.file (relRank 4 (by omega) b.stm))
          | none => false) && b.is_legal_en_passant mv
      else if flag = MoveFlag.EnPassant then false
      else if BB.contains b.pinned from_ ∧ ¬BB.contains (line our_king from_) to_ then false
      else
        match piece with
        | Piece.Pawn =>
          ((Sq.rank to_).val ≠ (relRank 7 (by omega) b.stm).val ∨ flag = MoveFlag.Promotion) ∧
            (BB.contains (Nat.land (pawn_attacks from_ b.stm) (BB.sqBB checker)) to_ ∨
              BB.contains (pawn_pushes from_ b.stm blockers) to_)
        | Piece.Knight => BB.contains (knight_moves from_) to_
        | Piece.Bishop => BB.contains (bishop_moves from_ blockers) to_
        | Piece.Rook => BB.contains (rook_moves from_ blockers) to_
        | Piece.Queen =>
          BB.contains (Nat.lor (bishop_moves from_ blockers) (rook_moves from_ blockers)) to_
        | Piece.King => false

/-- Board::is_legal: dispatch on the number of checkers. -/
def is_legal (b : Board) (mv : Move) : Bool :=
  match BB.popcnt b.checkers with
  | 0 => b.is_legal_no_check mv
  | 1 => b.is_legal_check mv
  | _ => b.is_legal_evasion mv

end Board

/-! ## String splitting helpers
    (executable models of Rust's str::trim / split used by the FEN reader
    and the UCI tokenizer; Lean's own String.trim/splitOn are opaque to the
    kernel, so these work on character lists) -/

namespace Str

def ofChars (cs : List Char) : String := String.mk cs

/-- Split on a separator character, keeping empty pieces (str::split(c)). -/
def splitOnC (sep : Char) (cs : List Char) : List (List Char) :=
  cs.foldr (fun c acc =>
    if c = sep then [] :: acc
    else match acc with
      | h :: t => (c :: h) :: t
      | [] => [[c]]) [[]]

/-- Split on a character class, keeping empty pieces. -/
def splitPred (p : Char → Bool) (cs : List Char) : List (List Char) :=
  cs.foldr (fun c acc =>
    if p c then [] :: acc
    else match acc with
      | h :: t => (c :: h) :: t
      | [] => [[c]]) [[]]

/-- str::trim on a character list. -/
def trimC (cs : List Char) : List Char :=
  ((cs.dropWhile Char.isWhitespace).reverse.dropWhile Char.isWhitespace).reverse

/-- Rust char::is_ascii_whitespace. -/
def isAsciiWs (c : Char) : Bool :=
  c = ' ' ∨ c = '\t' ∨ c = '\n' ∨ c = '\x0C' ∨ c = '\r'

/-- str::join with single spaces. -/
def joinSpace : List String → String
  | [] => ""
  | [s] => s
  | s :: rest => ofChars (s.toList ++ ' ' :: (joinSpace rest).toList)

end Str

/-! ## Integer parsing (Rust str::parse semantics for the used widths) -/

namespace Parse

/-- Parse an unsigned decimal integer (optional leading '+', at least one
    digit, value at most `maxv`), as Rust's str::parse for uN does. -/
def parse_uint (maxv : Nat) (s : String) : Option Nat :=
  let cs := s.toList
  let cs := match cs with | '+' :: rest => rest | _ => cs
  if cs.isEmpty ∨ ¬cs.all Char.isDigit then none
  else
    let v := cs.foldl (fun a c => a * 10 + (c.toNat - '0'.toNat)) 0
    if v > maxv then none else some v

def parse_u8 (s : String) : Option Nat := parse_uint 255 s

def parse_u16 (s : String) : Option Nat := parse_uint 65535 s

def parse_u32 (s : String) : Option Nat := parse_uint (2 ^ 32 - 1) s

def parse_u64 (s : String) : Option Nat := parse_uint (2 ^ 64 - 1) s

/-- Parse a signed decimal i64 (optional '+' or '-' sign). -/
def parse_i64 (s : String) : Option Int :=
  let cs := s.toList
  let (neg, cs) := match cs with
    | '-' :: rest => (true, rest)
    | '+' :: rest => (false, rest)
    | _ => (false, cs)
  if cs.isEmpty ∨ ¬cs.all Char.isDigit then none
  else
    let v : Int := cs.foldl (fun a c => a * 10 + ((c.toNat : Int) - ('0'.toNat : Int))) 0
    let v := if neg then -v else v
    if v < -(2 ^ 63) ∨ 2 ^ 63 - 1 < v then none else some v

/-- Rust bool::from_str: exactly "true" or "false". -/
def parse_bool (s : String) : Option Bool :=
  if s = "true" then some true else if s = "false" then some false else none

end Parse

/-! ## FEN reading and move parsing (src/icarus-board/src/board.rs) -/

namespace Board

open Lookups

/-- The all-empty board the FEN reader starts from. -/
def empty_board : Board where
  pieces := fun _ => BB.EMPTY
  colors := fun _ => BB.EMPTY
  mailbox := fun _ => none
  castling_rights := fun _ => CastlingRights.defaultCR
  en_passant := none
  pinned := BB.EMPTY
  checkers := BB.EMPTY
  attacked := BB.EMPTY
  halfmove_clock := 0
  fullmove_count := 0
  stm := Color.White
  hash := 0
  pawn_hash := 0
  minor_hash := 0
  major_hash := 0
  nonpawn_hash := fun _ => 0

/-- One rank line of the FEN piece field. The state carries the board and the
    current file counter (a u8 that is range-checked before each placement). -/
def read_fen_rank (z : Zobrist) (rank : Rank) (b : Board) (line : List Char) :
    Option Board :=
  (line.foldl (fun (st : Option (Board × Nat)) ch => do
    let (b, file) ← st
    if '1' ≤ ch ∧ ch ≤ '7' then
      pure (b, file + (ch.toNat - '0'.toNat))
    else if h : file < 8 then
      let piece ← match ch.toLower with
        | 'p' => pure Piece.Pawn
        | 'n' => pure Piece.Knight
        | 'b' => pure Piece.Bishop
        | 'r' => pure Piece.Rook
        | 'q' => pure Piece.Queen
        | 'k' => pure Piece.King
        | _ => none
      let color := if ch.isLower then Color.Black else Color.White
      let sq := Sq.new ⟨file, h⟩ rank
      let b := b.toggle_square z sq color piece
      if (b.mailbox sq).isSome then none
      else
        let b := { b with mailbox := fun s => (if s = sq then some piece else b.mailbox s) }
        pure (b, file + 1)
    else none) (some (b, 0))).map Prod.fst

/-- The castling-rights field of a FEN. -/
def read_fen_castles (z : Zobrist) (b : Board) (castles : String) : Option Board :=
  if castles = "-" then some b
  else
    castles.toList.foldl (fun (st : Option Board) ch => do
      let b ← st
      let color := if ch.isLower then Color.Black else Color.White
      let king := b.king color
      let file : File ←
        if h : 'a'.toNat ≤ ch.toLower.toNat ∧ ch.toLower.toNat - 'a'.toNat < 8 then
          pure ⟨ch.toLower.toNat - 'a'.toNat, h.2⟩
        else if ch.toLower = 'k' then
          (List.range 8).filter (fun f => (Sq.file king).val ≤ f) |>.findSome?
            (fun f => if h : f < 8 then
              (if BB.contains (b.colored_pieces Piece.Rook color)
                  (Sq.new ⟨f, h⟩ (Sq.rank king)) then some ⟨f, h⟩ else none)
              else none)
        else if ch.toLower = 'q' then
          ((List.range (Sq.file king).val).reverse).findSome?
            (fun f => if h : f < 8 then
              (if BB.contains (b.colored_pieces Piece.Rook color)
                  (Sq.new ⟨f, h⟩ (Sq.rank king)) then some ⟨f, h⟩ else none)
              else none)
        else none
      let king_sq := b.king color
      let rook_sq := Sq.new file (Sq.rank king_sq)
      if ¬BB.contains (b.colored_pieces Piece.Rook color) rook_sq then none
      else
        let dir := if (Sq.file king_sq).val < file.val then
          CastlingDirection.Short else CastlingDirection.Long
        pure (b.set_castles z color dir (some file))) (some b)

/-- The halfmove/fullmove clock fields of a FEN, validated and written last
    (the halfmove clock must parse as a u8 below 100, the fullmove counter
    as a u16). -/
def read_fen_finish (b : Board) (hmc fmc : String) : Option Board :=
  match Parse.parse_u8 hmc with
  | none => none
  | some hmcv =>
    if hmcv ≥ 100 then none
    else
      match Parse.parse_u16 fmc with
      | none => none
      | some fmcv =>
        some (calc_threats { b with halfmove_clock := hmcv, fullmove_count := fmcv })

/-- Board::read_fen. -/
def read_fen (z : Zobrist) (fen : String) : Option Board := do
  let parts := (Str.splitOnC ' ' (Str.trimC fen.toList)).map Str.ofChars
  match parts with
  | [pieces, stm, castles, epts, hmc, fmc] =>
    let b := empty_board
    -- Piece placement: ranks from 8 down to 1; short-circuit on a bare "8".
    let (b, rank) ← ((Str.splitOnC '/' pieces.toList).map Str.ofChars).foldlM
      (fun (st : Board × Nat) line => do
        let (b, rank) := st
        if rank = 0 then none
        else
          let rank' := rank - 1
          if line = "8" then pure (b, rank')
          else do
            let b ← read_fen_rank z ⟨rank' % 8, Nat.mod_lt _ (by omega)⟩ b line.toList
            pure (b, rank')) (b, 8)
    -- Sanity check that both sides have exactly one king.
    if BB.popcnt (b.colored_pieces Piece.King Color.White) ≠ 1 ∨
        BB.popcnt (b.colored_pieces Piece.King Color.Black) ≠ 1 then none
    else if rank ≠ 0 then none
    else do
      let b ← match stm with
        | "w" => pure { b with stm := Color.White }
        | "b" => pure { b with stm := Color.Black }
        | _ => none
      let b := if b.stm = Color.Black then
        { b with hash := Nat.xor b.hash z.black_to_move } else b
      let b ← read_fen_castles z b castles
      let b ← (if epts = "-" then pure b
        else do
          let file ← match epts.toList with
            | c :: rest =>
              if h : 'a'.toNat ≤ c.toNat ∧ c.toNat - 'a'.toNat < 8 then do
                let f : File := ⟨c.toNat - 'a'.toNat, h.2⟩
                match rest with
                | r :: _ => if r = '3' ∨ r = '6' then pure f else none
                | [] => none
              else none
            | [] => none
          pure (b.calc_ep_file z file))
      read_fen_finish b hmc fmc
  | _ => none

/-- Board::start_pos. -/
def start_pos (z : Zobrist) : Board :=
  (read_fen z "rnbqkbnr/pppppppp/8/8/8/8/PPPPPPPP/RNBQKBNR w KQkq - 0 1").getD empty_board

/-- Board::parse_move: long-algebraic input against the current board. -/
def parse_move (b : Board) (lan : String) (chess960 : Bool) : Option Move := do
  let cs := lan.toList
  if ¬(4 ≤ cs.length ∧ cs.length ≤ 5) then none
  else do
    let from_ ← Sq.parse (String.mk (cs.take 2))
    let to_ ← Sq.parse (String.mk ((cs.drop 2).take 2))
    match cs.get? 4 with
    | some c => do
      let pt ← Piece.from_char c
      if pt = Piece.Pawn ∨ pt = Piece.King then none
      else pure (Move.new_promotion from_ to_ pt)
    | none => do
      let castle_file : Option File ←
        if b.piece_on from_ ≠ some Piece.King then pure none
        else if ¬chess960 ∧ (Sq.file from_).val = 4 ∧
            ((Sq.file to_).val = 2 ∨ (Sq.file to_).val = 6) then do
          let dir := if (Sq.file to_).val = 2 then
            CastlingDirection.Long else CastlingDirection.Short
          let f ← (b.castling_rights b.stm).get dir
          pure (some f)
        else if b.colored_piece_on to_ b.stm = some Piece.Rook then
          pure (some (Sq.file to_))
        else pure none
      match castle_file with
      | some cf => pure (Move.new from_ (Sq.new cf (Sq.rank to_)) MoveFlag.Castle)
      | none =>
        let is_ep := b.piece_on from_ = some Piece.Pawn ∧
          (Sq.rank from_).val = (relRank 4 (by omega) b.stm).val ∧
          (b.en_passant.map EnPassantFile.file) = some (Sq.file to_)
        pure (Move.new from_ to_ (if is_ep then MoveFlag.EnPassant else MoveFlag.None))

end Board

/-! ## Scores (src/src/score.rs)
    Score wraps an i16, modelled as an Int with explicit 16-bit wrap-around
    where the Rust arithmetic can wrap. -/

/-- Modelled from the spec: MAX_PLY, "a compile-time constant, e.g. 256",
    defined in src/src/util (a module not present in the source tree; only
    its uses are). -/
def MAX_PLY : Nat := 256

namespace Score

/-- Score::MIN_MATE = i16::MAX - MAX_PLY ("mate in 0"). -/
def MIN_MATE : Int := 32767 - (MAX_PLY : Int)

/-- Score::MAX_MATE = i16::MAX - 2 * MAX_PLY ("mate in MAX_PLY"). -/
def MAX_MATE : Int := 32767 - 2 * (MAX_PLY : Int)

/-- Score::INFINITE. -/
def INFINITE : Int := MIN_MATE + 1

/-- Score::new_mate (the u16 ply is cast to i16). -/
def new_mate (ply : Nat) : Int := wrap16 (MIN_MATE - wrap16 ply)

/-- Score::new_mated. -/
def new_mated (ply : Nat) : Int := wrap16 (-(new_mate ply))

/-- i16::abs with release-mode wrapping (abs of -32768 stays -32768). -/
def abs16 (s : Int) : Int := wrap16 |s|

/-- Score::is_mate. -/
def is_mate (s : Int) : Bool := MAX_MATE ≤ abs16 s ∧ abs16 s ≤ MIN_MATE

/-- Score::is_infinite. -/
def is_infinite (s : Int) : Bool := INFINITE ≤ abs16 s

/-- Score::mate_in. -/
def mate_in (s : Int) : Option Int :=
  if is_mate s then some (s.sign * (MIN_MATE - abs16 s)) else none

end Score

/-! ## Transposition table (src/src/search/transposition_table.rs)
    Entries are (key, data) u64 pairs with the key XOR-masked against the
    data; the entry array is modelled as a function from indices. -/

inductive TTFlag where
  | None
  | Exact
  | Lower
  | Upper
deriving DecidableEq, Repr

namespace TTFlag

def idx : TTFlag → Nat
  | None => 0
  | Exact => 1
  | Lower => 2
  | Upper => 3

def from_idx (n : Nat) : TTFlag :=
  match n with
  | 0 => None
  | 1 => Exact
  | 2 => Lower
  | _ => Upper

end TTFlag

/-- Flags: a u8 packing age (bits 3-7), pv (bit 2) and the bound (bits 0-1). -/
abbrev Flags := Nat

namespace Flags

/-- Flags::new. The three fields occupy disjoint bit ranges, so the packing
    is written additively (age * 2^3 + pv * 2^2 + bound). -/
def newF (age : Nat) (pv : Bool) (tt_flag : TTFlag) : Flags :=
  age * 8 + cond pv 1 0 * 4 + tt_flag.idx

/-- Flags::age (f >> 3). -/
def age (f : Flags) : Nat := f / 8

/-- Flags::pv ((f >> 2) & 1). -/
def pv (f : Flags) : Bool := f / 4 % 2 ≠ 0

/-- Flags::tt_flag (f & 3). -/
def tt_flag (f : Flags) : TTFlag := TTFlag.from_idx (f % 4)

end Flags

/-- TTData: the 16-byte entry payload. -/
structure TTData where
  eval : Int
  score : Int
  mv : Option Move
  depth : Nat
  flags : Flags
deriving Repr

namespace TTData

/-- Int to u16 bit pattern. -/
def toU16 (s : Int) : Nat := ((s % 2 ^ 16 + 2 ^ 16) % 2 ^ 16).toNat

/-- TTData::pack: the repr(C) layout (eval, score, mv, depth, flags), with
    None represented by the reserved all-zero move value. The five fields
    occupy disjoint byte ranges, so the packing is written additively. -/
def pack (d : TTData) : Nat :=
  toU16 d.eval + toU16 d.score * 2 ^ 16 + (d.mv.getD 0) * 2 ^ 32 +
    d.depth * 2 ^ 48 + d.flags * 2 ^ 56

/-- TTData::unpack (byte-range extraction as division and remainder). -/
def unpack (n : Nat) : TTData where
  eval := wrap16 (n % 2 ^ 16 : Nat)
  score := wrap16 (n / 2 ^ 16 % 2 ^ 16 : Nat)
  mv := let m := n / 2 ^ 32 % 2 ^ 16
    if m = 0 then none else some m
  depth := n / 2 ^ 48 % 2 ^ 8
  flags := n / 2 ^ 56 % 2 ^ 8

end TTData

/-- TTable, with the entry array as a function from entry indices to raw
    (key, data) u64 pairs. -/
structure TTable where
  sizeE : Nat
  entries : Nat → Nat × Nat
  ageT : Nat

namespace TTable

/-- TTable::new for a size in MiB (16-byte entries, all zeroed). -/
def newTT (mb : Nat) : TTable where
  sizeE := mb * 1024 * 1024 / 16
  entries := fun _ => (0, 0)
  ageT := 0

/-- TTable::index: high 64 bits of hash * size. -/
def index (t : TTable) (hash : Nat) : Nat := (hash * t.sizeE) >>> 64

/-- TTable::score_to_tt. -/
def score_to_tt (s : Int) (ply : Nat) : Int :=
  if ¬Score.is_mate s then s
  else if s < 0 then wrap16 (s - wrap16 ply)
  else wrap16 (s + wrap16 ply)

/-- TTable::tt_to_score. -/
def tt_to_score (s : Int) (ply : Nat) : Int :=
  if ¬Score.is_mate s then s
  else if s < 0 then wrap16 (s + wrap16 ply)
  else wrap16 (s - wrap16 ply)

/-- TTable::fetch. -/
def fetch (t : TTable) (hash : Nat) (ply : Nat) : Option TTData :=
  let kd := t.entries (t.index hash)
  let key := Nat.xor kd.1 kd.2
  let data := TTData.unpack kd.2
  if key ≠ hash ∨ data.flags.tt_flag = TTFlag.None then none
  else some { data with score := tt_to_score data.score ply }

/-- TTEntry::store on the indexed slot. -/
def store_entry (t : TTable) (idx : Nat) (hash : Nat) (data : TTData) : TTable :=
  let packed := data.pack
  { t with entries := fun i =>
      (if i = idx then (Nat.xor hash packed, packed) else t.entries i) }

/-- TTable::store: always replace; the move falls back to the older entry's
    move when the new one is absent. -/
def store (t : TTable) (hash : Nat) (depth : Nat) (ply : Nat) (eval : Int)
    (score : Int) (mv : Option Move) (tt_flag : TTFlag) (pv : Bool) : TTable :=
  let old := t.fetch hash ply
  let new_ : TTData := {
    depth := depth
    eval := eval
    score := score_to_tt score ply
    mv := mv.orElse (fun _ => old.bind (fun d => d.mv))
    flags := Flags.newF t.ageT pv tt_flag }
  t.store_entry (t.index hash) hash new_

end TTable

/-! ## Time manager (src/src/search/time_manager.rs) -/

/-- SearchLimit from src/src/uci.rs. -/
inductive SearchLimit where
  | SearchMoves (moves : List Move)
  | WhiteTime (t : Nat)
  | BlackTime (t : Nat)
  | WhiteInc (t : Nat)
  | BlackInc (t : Nat)
  | MoveTime (t : Nat)
  | Depth (d : Nat)
  | Nodes (n : Nat)
deriving Repr

namespace TimeManager

/-- u64 saturating subtraction. -/
def satSub (a b : Nat) : Nat := a - b

/-- u64 saturating multiplication. -/
def satMul (a b : Nat) : Nat := min (a * b) U64MASK

/-- The limit values TimeManager::init stores (atomics in the Rust struct). -/
structure TMInit where
  infinite : Bool
  max_depth : Nat
  soft_nodes : Nat
  hard_nodes : Nat
  base_time : Nat
  soft_time : Nat
  hard_time : Nat
deriving Repr

/-- TimeManager::init as a pure function of the limits, the side to move,
    the MoveOverhead option (u16) and the soft-nodes mode. -/
def init (limits : List SearchLimit) (stm : Color) (move_overhead : Nat)
    (use_soft_nodes : Bool) : TMInit :=
  let st := limits.foldl
    (fun (st : (Color → Nat) × (Color → Nat) × Nat × Nat × Nat × Bool) limit =>
      let (time, inc, movetime, max_depth, max_nodes, infinite) := st
      let st := match limit with
        | SearchLimit.WhiteTime t =>
          ((fun c => if c = Color.White then t else time c), inc, movetime,
            max_depth, max_nodes, infinite)
        | SearchLimit.BlackTime t =>
          ((fun c => if c = Color.Black then t else time c), inc, movetime,
            max_depth, max_nodes, infinite)
        | SearchLimit.WhiteInc t =>
          (time, (fun c => if c = Color.White then t else inc c), movetime,
            max_depth, max_nodes, infinite)
        | SearchLimit.BlackInc t =>
          (time, (fun c => if c = Color.Black then t else inc c), movetime,
            max_depth, max_nodes, infinite)
        | SearchLimit.MoveTime t => (time, inc, t, max_depth, max_nodes, infinite)
        | SearchLimit.Depth d => (time, inc, movetime, d, max_nodes, infinite)
        | SearchLimit.Nodes n => (time, inc, movetime, max_depth, n, infinite)
        | SearchLimit.SearchMoves _ => st
      let (time, inc, movetime, max_depth, max_nodes, infinite) := st
      let infinite := match limit with
        | SearchLimit.WhiteTime _ | SearchLimit.BlackTime _ | SearchLimit.MoveTime _
        | SearchLimit.Depth _ | SearchLimit.Nodes _ => false
        | _ => infinite
      (time, inc, movetime, max_depth, max_nodes, infinite))
    ((fun _ => U64MASK), (fun _ => 0), U64MASK, 65535, U64MASK, true)
  let (time, inc, movetime, max_depth, max_nodes, infinite) := st
  let hard_nodes := satMul max_nodes (if use_soft_nodes then 200 else 1)
  let time := time stm
  let inc := inc stm
  let hard_time := min (time / 2) (satSub time move_overhead)
  let soft_time := min ((satSub (time / 64) move_overhead + inc) % 2 ^ 64) hard_time
  { infinite := infinite
    max_depth := min max_depth MAX_PLY
    soft_nodes := max_nodes
    hard_nodes := hard_nodes
    base_time := soft_time
    soft_time := soft_time
    hard_time := min hard_time (satSub movetime move_overhead) }

end TimeManager

/-! ## Static exchange evaluation (src/src/position.rs, src/src/weights.rs) -/

/-- see_val from weights.rs. -/
def see_val : Piece → Int
  | Piece.Pawn => 100
  | Piece.Knight => 300
  | Piece.Bishop => 300
  | Piece.Rook => 500
  | Piece.Queen => 900
  | Piece.King => 0

namespace Move

/-- Modelled from the spec: Move::captures lives in icarus-board's move
    module, which is absent from the source tree (only its callers are).
    Per the SEE description it yields the captured piece of a move: the
    victim on the destination square, a pawn for en-passant, and nothing for
    a castle (king takes own rook). -/
def captures (mv : Move) (b : Board) : Option Piece :=
  match mv.flag with
  | MoveFlag.EnPassant => some Piece.Pawn
  | MoveFlag.Castle => none
  | _ => b.piece_on mv.dst

end Move

/-- Position from src/src/position.rs: a board plus its undo history. -/
structure Position where
  board : Board
  history : List Board
  moves : List (Option (Piece × Move))

namespace Position

open Attacks Lookups

/-- The swap-off loop of Position::cmp_see. State: (occupied, attackers,
    stm, balance); each iteration removes one occupied square, so fuel 64
    always suffices. Returns the final side to move. -/
def cmp_see_loop (b : Board) (to_ : Square) (orth diag : Bitboard) :
    Nat → Bitboard → Bitboard → Color → Int → Color
  | 0, _, _, stm, _ => stm
  | fuel + 1, occupied, attackers, stm, balance =>
    let my_attackers := Nat.land attackers (b.occupied_by stm)
    if BB.is_empty my_attackers then stm
    else
      let next_victim := (Piece.all.find?
        (fun p => BB.is_non_empty (Nat.land my_attackers (b.pieces p)))).getD Piece.King
      let occupied := Nat.xor occupied
        (BB.sqBB (BB.next (Nat.land (b.pieces next_victim) my_attackers)))
      let attackers := if next_victim = Piece.Pawn ∨ next_victim = Piece.Bishop ∨
          next_victim = Piece.Queen then
        Nat.lor attackers (Nat.land (bishop_moves to_ occupied) diag)
      else attackers
      let attackers := if next_victim = Piece.Rook ∨ next_victim = Piece.Queen then
        Nat.lor attackers (Nat.land (rook_moves to_ occupied) orth)
      else attackers
      let attackers := Nat.land attackers occupied
      let stm := stm.invert
      let balance := wrap16 (wrap16 (wrap16 (-balance) - 1) - see_val next_victim)
      if 0 ≤ balance then
        -- King recapture edge case: if the king just recaptured while the
        -- opponent still has attackers, the exchange is lost after all.
        if next_victim = Piece.King ∧
            BB.is_non_empty (Nat.land attackers (b.occupied_by stm)) then
          stm.invert
        else stm
      else cmp_see_loop b to_ orth diag fuel occupied attackers stm balance

/-- Position::cmp_see. -/
def cmp_see (pos : Position) (mv : Move) (threshold : Int) : Bool :=
  let b := pos.board
  let from_ := mv.src
  let to_ := mv.dst
  let flag := mv.flag
  if flag = MoveFlag.Castle then threshold ≤ 0
  else
    let next_victim := (mv.promotes_to.orElse (fun _ => b.piece_on mv.src)).getD Piece.King
    let balance := wrap16 (wrap16 (wrap16 (-threshold) +
      ((mv.captures b).map see_val).getD 0) +
      ((mv.promotes_to.map (fun promo => see_val promo - see_val Piece.Pawn)).getD 0))
    if balance < 0 then false
    else
      let balance := wrap16 (balance - see_val next_victim)
      if 0 ≤ balance then true
      else
        let orth := Nat.lor (b.pieces Piece.Rook) (b.pieces Piece.Queen)
        let diag := Nat.lor (b.pieces Piece.Bishop) (b.pieces Piece.Queen)
        let occupied := Nat.lor (Nat.xor b.occupied (BB.sqBB from_)) (BB.sqBB to_)
        let occupied := if flag = MoveFlag.EnPassant then
          Nat.xor occupied (BB.sqBB (Sq.new (Sq.file to_) (Sq.rank from_)))
        else occupied
        let attackers := Nat.land (Nat.lor (Nat.lor (Nat.lor (Nat.lor (Nat.lor
          (Nat.land (Nat.land (pawn_attacks to_ Color.White) (b.occupied_by Color.Black))
            (b.pieces Piece.Pawn))
          (Nat.land (Nat.land (pawn_attacks to_ Color.Black) (b.occupied_by Color.White))
            (b.pieces Piece.Pawn)))
          (Nat.land (knight_moves to_) (b.pieces Piece.Knight)))
          (Nat.land (bishop_moves to_ occupied) diag))
          (Nat.land (rook_moves to_ occupied) orth))
          (Nat.land (king_moves to_) (b.pieces Piece.King))) occupied
        let stm := b.stm.invert
        let final_stm := cmp_see_loop b to_ orth diag 64 occupied attackers stm balance
        b.stm ≠ final_stm

end Position

/-! ## UCI command parsing (src/src/uci.rs)
    The token reader (split_ascii_whitespace) is modelled as a token list.
    The integer/boolean error payloads (Rust's ParseIntError/ParseBoolError)
    carry no information here. -/

inductive UciParseError where
  | UnknownCommand (s : String)
  | MissingCommand
  | MissingOptionNameToken
  | MissingOptionName
  | MissingOptionValueToken
  | MissingOptionValue
  | MissingPositionType
  | InvalidFen (s : String)
  | MissingPositionMovesToken
  | InvalidMove (s : String)
  | UnknownLimit (s : String)
  | MissingLimitValue (s : String)
  | InvalidInt
  | InvalidBool
deriving DecidableEq, Repr

inductive UciCommand where
  | Uci
  | NewGame
  | IsReady
  | SetOption (name value : String)
  | Position (board : Board) (moves : List Move)
  | Go (limits : List SearchLimit)
  | Eval
  | Display
  | Bench (depth threads hash : Nat)
  | Perft (depth : Nat) (bulk : Bool)
  | SplitPerft (depth : Nat) (bulk : Bool)
  | Stop
  | Quit
  | Wait

namespace Uci

/-- Modelled from the spec: DEFAULT_BENCH_DEPTH lives in src/src/bench.rs,
    which is absent from the source tree; the spec fixes no value ("run a
    fixed benchmark"), and no claim depends on it. -/
def DEFAULT_BENCH_DEPTH : Nat := 14

/-- Rust str::split_ascii_whitespace on the trimmed input. -/
def tokenize (s : String) : List String :=
  ((Str.splitPred Str.isAsciiWs (Str.trimC s.toList)).filter (· ≠ [])).map Str.ofChars

/-- The move loop of the `position … moves` branch: each token is parsed and
    checked legal on the evolving board, and played onto it. -/
def apply_moves (z : Zobrist) (chess960 : Bool) :
    Board → List String → Except UciParseError (List Move)
  | _, [] => Except.ok []
  | b, t :: rest =>
    match b.parse_move t chess960 with
    | none => Except.error (UciParseError.InvalidMove t)
    | some mv =>
      if ¬b.is_legal mv then Except.error (UciParseError.InvalidMove t)
      else
        match apply_moves z chess960 (b.make_move z mv) rest with
        | Except.ok ms => Except.ok (mv :: ms)
        | Except.error e => Except.error e

/-- The `go` keyword list. -/
def keywords : List String :=
  ["searchmoves", "wtime", "btime", "winc", "binc", "depth", "nodes", "movetime", "infinite"]

/-- The `searchmoves` loop: tokens up to the next keyword are parsed and
    checked legal against the current root board. -/
def parse_searchmoves (b : Board) (chess960 : Bool) :
    List String → Except UciParseError (List Move × List String)
  | [] => Except.ok ([], [])
  | t :: rest =>
    if keywords.contains t then Except.ok ([], t :: rest)
    else
      match b.parse_move t chess960 with
      | none => Except.error (UciParseError.InvalidMove t)
      | some mv =>
        if ¬b.is_legal mv then Except.error (UciParseError.InvalidMove t)
        else
          match parse_searchmoves b chess960 rest with
          | Except.ok (ms, rem) => Except.ok (mv :: ms, rem)
          | Except.error e => Except.error e

/-- How each limit keyword parses its value token. -/
def limit_of (part : String) (v : String) : Option SearchLimit :=
  match part with
  | "wtime" => (Parse.parse_i64 v).map (fun n => SearchLimit.WhiteTime (max n 0).toNat)
  | "btime" => (Parse.parse_i64 v).map (fun n => SearchLimit.BlackTime (max n 0).toNat)
  | "winc" => (Parse.parse_u64 v).map SearchLimit.WhiteInc
  | "binc" => (Parse.parse_u64 v).map SearchLimit.BlackInc
  | "depth" => (Parse.parse_u16 v).map SearchLimit.Depth
  | "nodes" => (Parse.parse_u64 v).map SearchLimit.Nodes
  | _ => (Parse.parse_u64 v).map SearchLimit.MoveTime

/-- The `go` limits loop. The loop consumes at least one token per
    iteration, so fuel equal to the token count never runs out (the fuel-zero
    branch is unreachable from parse_go). -/
def parse_go_fuel (b : Board) (chess960 : Bool) :
    Nat → List String → Except UciParseError (List SearchLimit)
  | _, [] => Except.ok []
  | 0, _ :: _ => Except.ok []
  | fuel + 1, part :: rest =>
    if part = "infinite" then parse_go_fuel b chess960 fuel rest
    else if part = "searchmoves" then
      match parse_searchmoves b chess960 rest with
      | Except.ok (moves, rem) =>
        (match parse_go_fuel b chess960 fuel rem with
        | Except.ok ls => Except.ok (SearchLimit.SearchMoves moves :: ls)
        | Except.error e => Except.error e)
      | Except.error e => Except.error e
    else if ["wtime", "btime", "winc", "binc", "depth", "nodes", "movetime"].contains part then
      match rest with
      | [] => Except.error (UciParseError.MissingLimitValue part)
      | v :: rest' =>
        (match limit_of part v with
        | none => Except.error UciParseError.InvalidInt
        | some l =>
          match parse_go_fuel b chess960 fuel rest' with
          | Except.ok ls => Except.ok (l :: ls)
          | Except.error e => Except.error e)
    else Except.error (UciParseError.UnknownLimit part)

def parse_go (b : Board) (chess960 : Bool) (toks : List String) :
    Except UciParseError (List SearchLimit) :=
  parse_go_fuel b chess960 toks.length toks

/-- The continuation of the `position` branch once the start board is known. -/
def position_moves (z : Zobrist) (chess960 : Bool) (startpos : Board) :
    List String → Except UciParseError UciCommand
  | [] => Except.ok (UciCommand.Position startpos [])
  | t :: mvtoks =>
    if t ≠ "moves" then Except.error UciParseError.MissingPositionMovesToken
    else
      match apply_moves z chess960 startpos mvtoks with
      | Except.ok moves => Except.ok (UciCommand.Position startpos moves)
      | Except.error e => Except.error e

/-- UciCommand::parse. -/
def parse (z : Zobrist) (s : String) (board : Board) (chess960 : Bool) :
    Except UciParseError UciCommand :=
  match tokenize s with
  | [] => Except.error UciParseError.MissingCommand
  | cmd :: rest =>
    match cmd with
    | "uci" => Except.ok UciCommand.Uci
    | "isready" => Except.ok UciCommand.IsReady
    | "ucinewgame" => Except.ok UciCommand.NewGame
    | "eval" => Except.ok UciCommand.Eval
    | "d" => Except.ok UciCommand.Display
    | "stop" => Except.ok UciCommand.Stop
    | "quit" => Except.ok UciCommand.Quit
    | "q" => Except.ok UciCommand.Quit
    | "wait" => Except.ok UciCommand.Wait
    | "setoption" =>
      (match rest with
      | "name" :: more =>
        (match more with
        | [] => Except.error UciParseError.MissingOptionName
        | name :: more' =>
          match more' with
          | [] => Except.ok (UciCommand.SetOption name "<empty>")
          | value_token :: more'' =>
            if value_token ≠ "value" then Except.error UciParseError.MissingOptionValueToken
            else
              match more'' with
              | [] => Except.error UciParseError.MissingOptionValue
              | value :: _ => Except.ok (UciCommand.SetOption name value))
      | _ => Except.error UciParseError.MissingOptionNameToken)
    | "so" =>
      (match rest with
      | [] => Except.error UciParseError.MissingOptionName
      | name :: more =>
        Except.ok (UciCommand.SetOption name ((more.head?).getD "<empty>")))
    | "bench" =>
      (match (match rest.head? with
        | none => some DEFAULT_BENCH_DEPTH
        | some s => Parse.parse_u8 s) with
      | none => Except.error UciParseError.InvalidInt
      | some depth =>
        match Parse.parse_u16 ((rest.drop 1).head?.getD "1") with
        | none => Except.error UciParseError.InvalidInt
        | some threads =>
          match Parse.parse_u32 ((rest.drop 2).head?.getD "16") with
          | none => Except.error UciParseError.InvalidInt
          | some hash => Except.ok (UciCommand.Bench depth threads hash))
    | "perft" =>
      (match Parse.parse_u8 (rest.head?.getD "6") with
      | none => Except.error UciParseError.InvalidInt
      | some depth =>
        match Parse.parse_bool ((rest.drop 1).head?.getD "true") with
        | none => Except.error UciParseError.InvalidBool
        | some bulk => Except.ok (UciCommand.Perft depth bulk))
    | "splitperft" =>
      (match Parse.parse_u8 (rest.head?.getD "6") with
      | none => Except.error UciParseError.InvalidInt
      | some depth =>
        match Parse.parse_bool ((rest.drop 1).head?.getD "true") with
        | none => Except.error UciParseError.InvalidBool
        | some bulk => Except.ok (UciCommand.SplitPerft depth bulk))
    | "position" =>
      (match rest with
      | "startpos" :: more => position_moves z chess960 (Board.start_pos z) more
      | "kiwipete" :: more => position_moves z chess960
          ((Board.read_fen z
            "r3k2r/p1ppqpb1/bn2pnp1/3PN3/1p2P3/2N2Q1p/PPPBBPPP/R3K2R w KQkq - 0 1").getD
            Board.empty_board) more
      | "fen" :: more =>
        let fen := Str.joinSpace (more.take 6)
        (match Board.read_fen z fen with
        | some b => position_moves z chess960 b (more.drop 6)
        | none => Except.error (UciParseError.InvalidFen fen))
      | _ => Except.error UciParseError.MissingPositionType)
    | "go" =>
      (match parse_go board chess960 rest with
      | Except.ok limits => Except.ok (UciCommand.Go limits)
      | Except.error e => Except.error e)
    | _ => Except.error (UciParseError.UnknownCommand cmd)

end Uci

/-! ## Specification-side predicates
    These definitions follow the wording of the specification (not the code);
    they are used to compare the code's state against what the spec claims
    about it. -/

namespace Spec

open Board

/-- Modelled from the spec: an en-passant capture (or any move) by the side
    to move is "legal" when playing it leaves the mover's king unattacked:
    the move is made and the threat state is recomputed from the mover's
    perspective. -/
def move_keeps_king_safe (z : Zobrist) (b : Board) (mv : Move) : Bool :=
  let b' := b.make_move z mv
  BB.is_empty (Board.calc_threats { b' with stm := b.stm }).checkers

/-- The en-passant capture move of a given attacker square. -/
def ep_move (b : Board) (ep : EnPassantFile) (from_ : Square) : Move :=
  Move.new from_ (Sq.new ep.file (relRank 5 (by omega) b.stm)) MoveFlag.EnPassant

/-- Spec invariant: the mailbox agrees with the per-piece and per-color
    bitboards for every square. -/
def mailbox_consistent (b : Board) : Bool :=
  (List.finRange 64).all (fun sq =>
    (Piece.all.filter (fun p => BB.contains (b.pieces p) sq) =
      (match b.mailbox sq with | some p => [p] | none => [])) ∧
    ((BB.contains (b.colors Color.White) sq ∨ BB.contains (b.colors Color.Black) sq) ↔
      (b.mailbox sq).isSome) ∧
    ¬(BB.contains (b.colors Color.White) sq ∧ BB.contains (b.colors Color.Black) sq))

/-- Spec invariant: each color has exactly one king. -/
def one_king_each (b : Board) : Bool :=
  BB.popcnt (b.colored_pieces Piece.King Color.White) = 1 ∧
    BB.popcnt (b.colored_pieces Piece.King Color.Black) = 1

/-- Spec invariant: checkers/pinned/attacked are current for the side to
    move (they equal their recomputation). -/
def threats_current (b : Board) : Bool :=
  let t := Board.calc_threats b
  b.checkers = t.checkers ∧ b.pinned = t.pinned ∧ b.attacked = t.attacked

/-- Spec invariant: if en_passant is set, at least one en-passant capture by
    a marked attacker is legal (no king exposure after the capture). -/
def ep_invariant (z : Zobrist) (b : Board) : Bool :=
  match b.en_passant with
  | none => true
  | some ep =>
    (BB.squares (ep.attacker_bb b.stm)).any (fun from_ =>
      move_keeps_king_safe z b (ep_move b ep from_))

/-- The attacker bits of the descriptor mark exactly the adjacent pawns
    whose en-passant capture is legal. -/
def ep_bits_exact (z : Zobrist) (b : Board) : Bool :=
  match b.en_passant with
  | none => true
  | some ep =>
    let stm := b.stm
    let rank := relRank 4 (by omega) stm
    (List.finRange 64).all (fun sq =>
      if (Sq.rank sq).val = rank.val ∧
          ((Sq.file sq).val + 1 = ep.file.val ∨ (Sq.file sq).val = ep.file.val + 1) then
        (BB.contains (ep.attacker_bb stm) sq ↔
          (BB.contains (b.colored_pieces Piece.Pawn stm) sq ∧
            move_keeps_king_safe z b (ep_move b ep sq)))
      else true)

/-- The decidable data-model invariants of the spec (§3). The Zobrist
    sub-hash bullets are not included: read_fen establishes them by
    construction (hashes are only ever updated through toggle_square), and
    they do not constrain the piece placement the claims below are about. -/
def invariants_ok (z : Zobrist) (b : Board) : Bool :=
  mailbox_consistent b ∧ one_king_each b ∧ threats_current b ∧
    b.halfmove_clock ≤ 100 ∧ ep_invariant z b

end Spec

/-! ## Specification-side move loop descriptions for the UCI parser -/

namespace Spec

/-- The first move token of a `position … moves` tail that fails to parse or
    is illegal in the position it would be played in (the board evolves as
    the earlier moves are played). -/
def first_illegal (z : Zobrist) (chess960 : Bool) :
    Board → List String → Option String
  | _, [] => none
  | b, t :: rest =>
    match b.parse_move t chess960 with
    | none => some t
    | some mv =>
      if ¬b.is_legal mv then some t
      else first_illegal z chess960 (b.make_move z mv) rest

/-- The moves a fully legal `position … moves` tail denotes. -/
def played_moves (z : Zobrist) (chess960 : Bool) :
    Board → List String → List Move
  | _, [] => []
  | b, t :: rest =>
    match b.parse_move t chess960 with
    | none => []
    | some mv =>
      if ¬b.is_legal mv then []
      else mv :: played_moves z chess960 (b.make_move z mv) rest

/-- The first searchmoves token that fails to parse or is illegal in the
    root position (all tokens are checked against the same board). -/
def first_illegal_fixed (b : Board) (chess960 : Bool) : List String → Option String
  | [] => none
  | t :: rest =>
    match b.parse_move t chess960 with
    | none => some t
    | some mv =>
      if ¬b.is_legal mv then some t
      else first_illegal_fixed b chess960 rest

/-- The moves a fully legal searchmoves list denotes. -/
def searchmoves_moves (b : Board) (chess960 : Bool) : List String → List Move
  | [] => []
  | t :: rest =>
    match b.parse_move t chess960 with
    | none => []
    | some mv =>
      if ¬b.is_legal mv then []
      else mv :: searchmoves_moves b chess960 rest

end Spec

/-! ## Projection lemmas for the board update pipeline -/

namespace Board

@[simp] lemma toggle_square_halfmove (z : Zobrist) (b : Board) (sq : Square)
    (c : Color) (p : Piece) : (b.toggle_square z sq c p).halfmove_clock = b.halfmove_clock := by
  cases p <;> simp [toggle_square]

@[simp] lemma toggle_square_fullmove (z : Zobrist) (b : Board) (sq : Square)
    (c : Color) (p : Piece) : (b.toggle_square z sq c p).fullmove_count = b.fullmove_count := by
  cases p <;> simp [toggle_square]

@[simp] lemma toggle_square_stm (z : Zobrist) (b : Board) (sq : Square)
    (c : Color) (p : Piece) : (b.toggle_square z sq c p).stm = b.stm := by
  cases p <;> simp [toggle_square]

@[simp] lemma toggle_square_mailbox (z : Zobrist) (b : Board) (sq : Square)
    (c : Color) (p : Piece) : (b.toggle_square z sq c p).mailbox = b.mailbox := by
  cases p <;> rfl

@[simp] lemma toggle_square_ep (z : Zobrist) (b : Board) (sq : Square)
    (c : Color) (p : Piece) : (b.toggle_square z sq c p).en_passant = b.en_passant := by
  cases p <;> rfl

@[simp] lemma set_en_passant_halfmove (z : Zobrist) (b : Board) (f : Option EnPassantFile) :
    (b.set_en_passant z f).halfmove_clock = b.halfmove_clock := by
  unfold set_en_passant
  split <;> split <;> rfl

@[simp] lemma set_en_passant_fullmove (z : Zobrist) (b : Board) (f : Option EnPassantFile) :
    (b.set_en_passant z f).fullmove_count = b.fullmove_count := by
  unfold set_en_passant
  split <;> split <;> rfl

@[simp] lemma set_en_passant_stm (z : Zobrist) (b : Board) (f : Option EnPassantFile) :
    (b.set_en_passant z f).stm = b.stm := by
  unfold set_en_passant
  split <;> split <;> rfl

@[simp] lemma set_en_passant_mailbox (z : Zobrist) (b : Board) (f : Option EnPassantFile) :
    (b.set_en_passant z f).mailbox = b.mailbox := by
  unfold set_en_passant
  split <;> split <;> rfl

@[simp] lemma set_en_passant_ep (z : Zobrist) (b : Board) (f : Option EnPassantFile) :
    (b.set_en_passant z f).en_passant = f := by
  unfold set_en_passant
  split <;> split <;> rfl

@[simp] lemma set_castles_halfmove (z : Zobrist) (b : Board) (c : Color)
    (dir : CastlingDirection) (f : Option File) :
    (b.set_castles z c dir f).halfmove_clock = b.halfmove_clock := by
  unfold set_castles
  split <;> split <;> rfl

@[simp] lemma set_castles_fullmove (z : Zobrist) (b : Board) (c : Color)
    (dir : CastlingDirection) (f : Option File) :
    (b.set_castles z c dir f).fullmove_count = b.fullmove_count := by
  unfold set_castles
  split <;> split <;> rfl

@[simp] lemma set_castles_stm (z : Zobrist) (b : Board) (c : Color)
    (dir : CastlingDirection) (f : Option File) :
    (b.set_castles z c dir f).stm = b.stm := by
  unfold set_castles
  split <;> split <;> rfl

@[simp] lemma set_castles_mailbox (z : Zobrist) (b : Board) (c : Color)
    (dir : CastlingDirection) (f : Option File) :
    (b.set_castles z c dir f).mailbox = b.mailbox := by
  unfold set_castles
  split <;> split <;> rfl

@[simp] lemma set_castles_ep (z : Zobrist) (b : Board) (c : Color)
    (dir : CastlingDirection) (f : Option File) :
    (b.set_castles z c dir f).en_passant = b.en_passant := by
  unfold set_castles
  split <;> split <;> rfl

@[simp] lemma calc_threats_halfmove (b : Board) :
    (b.calc_threats).halfmove_clock = b.halfmove_clock := by
  simp [calc_threats]

@[simp] lemma calc_threats_fullmove (b : Board) :
    (b.calc_threats).fullmove_count = b.fullmove_count := by
  simp [calc_threats]

@[simp] lemma calc_threats_stm (b : Board) : (b.calc_threats).stm = b.stm := by
  simp [calc_threats]

@[simp] lemma calc_threats_mailbox (b : Board) : (b.calc_threats).mailbox = b.mailbox := by
  simp [calc_threats]

@[simp] lemma calc_threats_ep (b : Board) : (b.calc_threats).en_passant = b.en_passant := by
  simp [calc_threats]

@[simp] lemma calc_ep_file_halfmove (z : Zobrist) (b : Board) (f : File) :
    (b.calc_ep_file z f).halfmove_clock = b.halfmove_clock := by
  simp only [calc_ep_file]
  split_ifs <;> simp

@[simp] lemma calc_ep_file_fullmove (z : Zobrist) (b : Board) (f : File) :
    (b.calc_ep_file z f).fullmove_count = b.fullmove_count := by
  simp only [calc_ep_file]
  split_ifs <;> simp

@[simp] lemma calc_ep_file_stm (z : Zobrist) (b : Board) (f : File) :
    (b.calc_ep_file z f).stm = b.stm := by
  simp only [calc_ep_file]
  split_ifs <;> simp

@[simp] lemma calc_ep_file_mailbox (z : Zobrist) (b : Board) (f : File) :
    (b.calc_ep_file z f).mailbox = b.mailbox := by
  simp only [calc_ep_file]
  split_ifs <;> simp

@[simp] lemma revoke_matching_halfmove (z : Zobrist) (b : Board) (c : Color) (f : File) :
    (revoke_matching z b c f).halfmove_clock = b.halfmove_clock := by
  simp only [revoke_matching, List.foldl_cons, List.foldl_nil]
  split_ifs <;> simp

@[simp] lemma revoke_matching_fullmove (z : Zobrist) (b : Board) (c : Color) (f : File) :
    (revoke_matching z b c f).fullmove_count = b.fullmove_count := by
  simp only [revoke_matching, List.foldl_cons, List.foldl_nil]
  split_ifs <;> simp

@[simp] lemma revoke_matching_stm (z : Zobrist) (b : Board) (c : Color) (f : File) :
    (revoke_matching z b c f).stm = b.stm := by
  simp only [revoke_matching, List.foldl_cons, List.foldl_nil]
  split_ifs <;> simp

@[simp] lemma revoke_matching_mailbox (z : Zobrist) (b : Board) (c : Color) (f : File) :
    (revoke_matching z b c f).mailbox = b.mailbox := by
  simp only [revoke_matching, List.foldl_cons, List.foldl_nil]
  split_ifs <;> simp

@[simp] lemma revoke_matching_ep (z : Zobrist) (b : Board) (c : Color) (f : File) :
    (revoke_matching z b c f).en_passant = b.en_passant := by
  simp only [revoke_matching, List.foldl_cons, List.foldl_nil]
  split_ifs <;> simp

@[simp] lemma mm_capture_halfmove (z : Zobrist) (b : Board) (to_ : Square) (flag : MoveFlag) :
    (mm_capture z b to_ flag).halfmove_clock = b.halfmove_clock := by
  simp only [mm_capture]
  split <;> [skip; rfl]
  split_ifs <;> simp

@[simp] lemma mm_capture_fullmove (z : Zobrist) (b : Board) (to_ : Square) (flag : MoveFlag) :
    (mm_capture z b to_ flag).fullmove_count = b.fullmove_count := by
  simp only [mm_capture]
  split <;> [skip; rfl]
  split_ifs <;> simp

@[simp] lemma mm_capture_stm (z : Zobrist) (b : Board) (to_ : Square) (flag : MoveFlag) :
    (mm_capture z b to_ flag).stm = b.stm := by
  simp only [mm_capture]
  split <;> [skip; rfl]
  split_ifs <;> simp

@[simp] lemma mm_capture_mailbox (z : Zobrist) (b : Board) (to_ : Square) (flag : MoveFlag) :
    (mm_capture z b to_ flag).mailbox = b.mailbox := by
  simp only [mm_capture]
  split <;> [skip; rfl]
  split_ifs <;> simp

@[simp] lemma mm_capture_ep (z : Zobrist) (b : Board) (to_ : Square) (flag : MoveFlag) :
    (mm_capture z b to_ flag).en_passant = b.en_passant := by
  simp only [mm_capture]
  split <;> [skip; rfl]
  split_ifs <;> simp

@[simp] lemma mm_apply_halfmove (z : Zobrist) (b : Board) (from_ to_ : Square)
    (flag : MoveFlag) (piece promotion : Piece) :
    (mm_apply z b from_ to_ flag piece promotion).1.halfmove_clock = b.halfmove_clock := by
  cases flag
  case None => cases piece <;> simp only [mm_apply] <;> (try split_ifs) <;> simp
  all_goals simp only [mm_apply] <;> simp

@[simp] lemma mm_apply_fullmove (z : Zobrist) (b : Board) (from_ to_ : Square)
    (flag : MoveFlag) (piece promotion : Piece) :
    (mm_apply z b from_ to_ flag piece promotion).1.fullmove_count = b.fullmove_count := by
  cases flag
  case None => cases piece <;> simp only [mm_apply] <;> (try split_ifs) <;> simp
  all_goals simp only [mm_apply] <;> simp

@[simp] lemma mm_apply_stm (z : Zobrist) (b : Board) (from_ to_ : Square)
    (flag : MoveFlag) (piece promotion : Piece) :
    (mm_apply z b from_ to_ flag piece promotion).1.stm = b.stm := by
  cases flag
  case None => cases piece <;> simp only [mm_apply] <;> (try split_ifs) <;> simp
  all_goals simp only [mm_apply] <;> simp

@[simp] lemma mm_apply_ep (z : Zobrist) (b : Board) (from_ to_ : Square)
    (flag : MoveFlag) (piece promotion : Piece) :
    (mm_apply z b from_ to_ flag piece promotion).1.en_passant = b.en_passant := by
  cases flag
  case None => cases piece <;> simp only [mm_apply] <;> (try split_ifs) <;> simp
  all_goals simp only [mm_apply] <;> simp

@[simp] lemma mm_finish_halfmove (z : Zobrist) (b : Board) (dpf : Option File) :
    (mm_finish z b dpf).halfmove_clock = b.halfmove_clock := by
  unfold mm_finish
  cases dpf <;> simp

@[simp] lemma mm_finish_fullmove (z : Zobrist) (b : Board) (dpf : Option File) :
    (mm_finish z b dpf).fullmove_count = b.fullmove_count := by
  unfold mm_finish
  cases dpf <;> simp

@[simp] lemma mm_finish_stm (z : Zobrist) (b : Board) (dpf : Option File) :
    (mm_finish z b dpf).stm = b.stm.invert := by
  unfold mm_finish
  cases dpf <;> simp

@[simp] lemma nat_xor_zero (n : Nat) : Nat.xor n 0 = n := Nat.xor_zero n

@[simp] lemma mm_prelude_halfmove (z : Zobrist) (b : Board) :
    (mm_prelude z b).halfmove_clock = (b.halfmove_clock + 1) % 256 := by
  simp [mm_prelude]

@[simp] lemma mm_prelude_fullmove (z : Zobrist) (b : Board) :
    (mm_prelude z b).fullmove_count =
      (b.fullmove_count + if b.stm = Color.Black then 1 else 0) % 65536 := by
  simp [mm_prelude]

@[simp] lemma mm_prelude_stm (z : Zobrist) (b : Board) : (mm_prelude z b).stm = b.stm := by
  simp [mm_prelude]

@[simp] lemma mm_prelude_mailbox (z : Zobrist) (b : Board) :
    (mm_prelude z b).mailbox = b.mailbox := by
  simp [mm_prelude]

@[simp] lemma mm_prelude_ep (z : Zobrist) (b : Board) :
    (mm_prelude z b).en_passant = none := by
  simp [mm_prelude]

lemma mm_prelude_absorb (z : Zobrist) (b : Board) :
    mm_prelude z (b.set_en_passant z none) = mm_prelude z b := by
  cases he : b.en_passant <;> simp [mm_prelude, set_en_passant, he]

end Board

namespace Board

lemma make_move_halfmove (z : Zobrist) (b : Board) (mv : Move) (p : Piece)
    (hp : b.piece_on mv.src = some p) :
    (b.make_move z mv).halfmove_clock =
      if p = Piece.Pawn ∨ ((b.piece_on mv.dst).isSome ∧ mv.flag ≠ MoveFlag.Castle) then 0
      else (b.halfmove_clock + 1) % 256 := by
  simp only [make_move]
  rw [hp]
  simp only [mm_finish_halfmove, mm_apply_halfmove, mm_capture_halfmove, piece_on,
    set_en_passant_halfmove, set_en_passant_mailbox] at *
  split_ifs <;> simp_all

lemma make_move_fullmove (z : Zobrist) (b : Board) (mv : Move) (p : Piece)
    (hp : b.piece_on mv.src = some p) :
    (b.make_move z mv).fullmove_count =
      (b.fullmove_count + if b.stm = Color.Black then 1 else 0) % 65536 := by
  simp only [make_move]
  rw [hp]
  simp only [mm_finish_fullmove, mm_apply_fullmove, mm_capture_fullmove, piece_on,
    set_en_passant_fullmove, set_en_passant_mailbox] at *
  split_ifs <;> simp_all

lemma make_move_stm (z : Zobrist) (b : Board) (mv : Move) (p : Piece)
    (hp : b.piece_on mv.src = some p) :
    (b.make_move z mv).stm = b.stm.invert := by
  simp only [make_move]
  rw [hp]
  simp only [mm_finish_stm, mm_apply_stm, mm_capture_stm, piece_on,
    set_en_passant_stm, set_en_passant_mailbox] at *
  split_ifs <;> simp_all

end Board

namespace Board

lemma set_en_passant_none_hash (z : Zobrist) (b : Board) :
    (b.set_en_passant z none).hash =
      Nat.xor b.hash (match b.en_passant with
        | some old => z.en_passant old.file
        | none => 0) := by
  cases he : b.en_passant <;> simp [set_en_passant, he]


lemma make_move_ep_independent (z : Zobrist) (b : Board) (mv : Move) (p : Piece)
    (hp : b.piece_on mv.src = some p) :
    (b.set_en_passant z none).make_move z mv = b.make_move z mv := by
  have hpe : ∀ sq, (b.set_en_passant z none).piece_on sq = b.piece_on sq := by
    intro sq
    simp [piece_on]
  simp only [make_move, hpe, hp]
  rw [mm_prelude_absorb]

end Board

/-! ## Claim theorems -/

/-! ## Transposition-table packing lemmas -/

lemma wrap16_bounds (n : Int) : -32768 ≤ wrap16 n ∧ wrap16 n ≤ 32767 := by
  unfold wrap16; omega

lemma wrap16_eq_of (n : Int) (h1 : -32768 ≤ n) (h2 : n ≤ 32767) : wrap16 n = n := by
  unfold wrap16; omega

lemma toU16_lt (s : Int) : TTData.toU16 s < 65536 := by
  unfold TTData.toU16; omega

lemma wrap16_toU16 (s : Int) (h1 : -32768 ≤ s) (h2 : s ≤ 32767) :
    wrap16 (TTData.toU16 s) = s := by
  unfold wrap16 TTData.toU16; omega

lemma nat_xor_cancel (a b : Nat) : Nat.xor (Nat.xor a b) b = a := by
  have h : (a ^^^ b) ^^^ b = a := by
    rw [Nat.xor_assoc, Nat.xor_self, Nat.xor_zero]
  exact h

lemma score_to_tt_range (s : Int) (p : Nat) (h1 : -32768 ≤ s) (h2 : s ≤ 32767) :
    -32768 ≤ TTable.score_to_tt s p ∧ TTable.score_to_tt s p ≤ 32767 := by
  unfold TTable.score_to_tt
  split_ifs <;> first
  | exact ⟨h1, h2⟩
  | exact wrap16_bounds _

lemma fetch_mv_bounds (t : TTable) (h p : Nat) (d : TTData) (m : Nat)
    (hf : t.fetch h p = some d) (hm : d.mv = some m) : 0 < m ∧ m < 65536 := by
  simp only [TTable.fetch] at hf
  split at hf
  · exact absurd hf (by simp)
  · rw [Option.some_inj] at hf
    subst hf
    simp only [TTData.unpack] at hm
    split at hm
    · exact absurd hm (by simp)
    · rename_i hne
      rw [Option.some_inj] at hm
      refine ⟨?_, ?_⟩
      · rw [← hm]; exact Nat.pos_of_ne_zero hne
      · rw [← hm]; exact Nat.mod_lt _ (by norm_num)

lemma flags_newF_lt (age : Nat) (pv : Bool) (flag : TTFlag) (hage : age ≤ 31) :
    Flags.newF age pv flag < 256 := by
  have hidx : flag.idx ≤ 3 := by cases flag <;> simp [TTFlag.idx]
  have hc : (cond pv 1 0 : Nat) ≤ 1 := by cases pv <;> simp
  show age * 8 + cond pv 1 0 * 4 + TTFlag.idx flag < 256
  omega

lemma flags_newF_tt_flag (age : Nat) (pv : Bool) (flag : TTFlag) :
    Flags.tt_flag (Flags.newF age pv flag) = flag := by
  have hidx : flag.idx ≤ 3 := by cases flag <;> simp [TTFlag.idx]
  have hc : (cond pv 1 0 : Nat) ≤ 1 := by cases pv <;> simp
  have hmod : Flags.newF age pv flag % 4 = flag.idx := by
    show (age * 8 + cond pv 1 0 * 4 + TTFlag.idx flag : Nat) % 4 = TTFlag.idx flag
    omega
  unfold Flags.tt_flag
  rw [hmod]
  cases flag <;> rfl

lemma flags_newF_pv (age : Nat) (pv : Bool) (flag : TTFlag) :
    Flags.pv (Flags.newF age pv flag) = pv := by
  have hidx : flag.idx ≤ 3 := by cases flag <;> simp [TTFlag.idx]
  cases pv with
  | false =>
    have h0 : Flags.newF age false flag / 4 % 2 = 0 := by
      show (age * 8 + 0 * 4 + TTFlag.idx flag : Nat) / 4 % 2 = 0
      omega
    simp [Flags.pv, h0]
  | true =>
    have h1 : Flags.newF age true flag / 4 % 2 = 1 := by
      show (age * 8 + 1 * 4 + TTFlag.idx flag : Nat) / 4 % 2 = 1
      omega
    simp [Flags.pv, h1]

/-- Byte-range extraction from an additively packed 64-bit word. -/
lemma unpack_pack_fields (e sc m dep f : Nat)
    (hE : e < 65536) (hSC : sc < 65536) (hM : m < 65536) (hD : dep < 256) (hF : f < 256) :
    (e + sc * 2 ^ 16 + m * 2 ^ 32 + dep * 2 ^ 48 + f * 2 ^ 56) % 2 ^ 16 = e ∧
    (e + sc * 2 ^ 16 + m * 2 ^ 32 + dep * 2 ^ 48 + f * 2 ^ 56) / 2 ^ 16 % 2 ^ 16 = sc ∧
    (e + sc * 2 ^ 16 + m * 2 ^ 32 + dep * 2 ^ 48 + f * 2 ^ 56) / 2 ^ 32 % 2 ^ 16 = m ∧
    (e + sc * 2 ^ 16 + m * 2 ^ 32 + dep * 2 ^ 48 + f * 2 ^ 56) / 2 ^ 48 % 2 ^ 8 = dep ∧
    (e + sc * 2 ^ 16 + m * 2 ^ 32 + dep * 2 ^ 48 + f * 2 ^ 56) / 2 ^ 56 % 2 ^ 8 = f := by
  refine ⟨?_, ?_, ?_, ?_, ?_⟩ <;> omega

/-- fetch after store on the same hash: the indexed entry is replaced, the
    XOR-masked key recovers the hash, and every field unpacks to what store
    packed. -/
lemma TTable.store_fetch (t : TTable) (hash depth p q : Nat) (eval score : Int)
    (mv : Option Move) (flag : TTFlag) (pv : Bool)
    (hd : depth ≤ 255) (hage : t.ageT ≤ 31)
    (he1 : -32768 ≤ eval) (he2 : eval ≤ 32767)
    (hs1 : -32768 ≤ score) (hs2 : score ≤ 32767)
    (hmv : mv = none ∨ (0 < mv.getD 0 ∧ mv.getD 0 < 65536))
    (hflag : flag ≠ TTFlag.None) :
    (t.store hash depth p eval score mv flag pv).fetch hash q =
      some { eval := eval
             score := TTable.tt_to_score (TTable.score_to_tt score p) q
             mv := mv.orElse (fun _ => (t.fetch hash p).bind (fun d => d.mv))
             depth := depth
             flags := Flags.newF t.ageT pv flag } := by
  have hstored : ∀ m, mv.orElse (fun _ => (t.fetch hash p).bind (fun d => d.mv)) = some m →
      0 < m ∧ m < 65536 := by
    intro m hm
    cases hc : mv with
    | some m0 =>
      rw [hc] at hm
      have hm0 : m0 = m := by simpa [Option.orElse] using hm
      subst hm0
      rcases hmv with h | h
      · rw [hc] at h; exact absurd h (by simp)
      · rw [hc] at h
        simp only [Option.getD_some] at h
        exact h
    | none =>
      rw [hc] at hm
      simp only [Option.orElse] at hm
      rw [Option.bind_eq_some] at hm
      obtain ⟨d, hf, hdm⟩ := hm
      exact fetch_mv_bounds t hash p d m hf hdm
  obtain ⟨st, hst⟩ : ∃ x, mv.orElse (fun _ => (t.fetch hash p).bind (fun d => d.mv)) = x :=
    ⟨_, rfl⟩
  obtain ⟨SC, hSC⟩ : ∃ x, TTable.score_to_tt score p = x := ⟨_, rfl⟩
  obtain ⟨F, hF⟩ : ∃ x, Flags.newF t.ageT pv flag = x := ⟨_, rfl⟩
  rw [hst] at hstored ⊢
  rw [hSC, hF]
  obtain ⟨P, hPd⟩ : ∃ x, TTData.pack (TTData.mk eval SC st depth F) = x := ⟨_, rfl⟩
  have hP : P = TTData.toU16 eval + TTData.toU16 SC * 2 ^ 16 + st.getD 0 * 2 ^ 32 +
      depth * 2 ^ 48 + F * 2 ^ 56 := by rw [← hPd]; rfl
  have hE := toU16_lt eval
  have hSCb := toU16_lt SC
  have hMb : st.getD 0 < 65536 := by
    cases hs : st with
    | none => simp
    | some m => simpa using (hstored m hs).2
  have hFb : F < 256 := hF ▸ flags_newF_lt _ _ _ hage
  have hfields := unpack_pack_fields (TTData.toU16 eval) (TTData.toU16 SC)
    (st.getD 0) depth F hE hSCb hMb (by omega) hFb
  have h1 : P % 2 ^ 16 = TTData.toU16 eval := by rw [hP]; exact hfields.1
  have h2 : P / 2 ^ 16 % 2 ^ 16 = TTData.toU16 SC := by rw [hP]; exact hfields.2.1
  have h3 : P / 2 ^ 32 % 2 ^ 16 = st.getD 0 := by rw [hP]; exact hfields.2.2.1
  have h4 : P / 2 ^ 48 % 2 ^ 8 = depth := by rw [hP]; exact hfields.2.2.2.1
  have h5 : P / 2 ^ 56 % 2 ^ 8 = F := by rw [hP]; exact hfields.2.2.2.2
  have heval : (TTData.unpack P).eval = eval := by
    simp only [TTData.unpack]
    rw [h1]
    exact wrap16_toU16 eval he1 he2
  have hscore : (TTData.unpack P).score = SC := by
    simp only [TTData.unpack]
    rw [h2]
    obtain ⟨hr1, hr2⟩ := score_to_tt_range score p hs1 hs2
    rw [hSC] at hr1 hr2
    exact wrap16_toU16 SC hr1 hr2
  have hmvf : (TTData.unpack P).mv = st := by
    simp only [TTData.unpack]
    rw [h3]
    cases hs : st with
    | none => simp
    | some m =>
      have hpos := (hstored m hs).1
      simp only [Option.getD_some]
      rw [if_neg (Nat.pos_iff_ne_zero.mp hpos)]
  have hdep : (TTData.unpack P).depth = depth := by
    simp only [TTData.unpack]
    exact h4
  have hflg : (TTData.unpack P).flags = F := by
    simp only [TTData.unpack]
    exact h5
  have htf : Flags.tt_flag ((TTData.unpack P).flags) = flag := by
    rw [hflg, ← hF, flags_newF_tt_flag]
  have hidx : (t.store hash depth p eval score mv flag pv).index hash = t.index hash := rfl
  have hent : (t.store hash depth p eval score mv flag pv).entries (t.index hash)
      = (Nat.xor hash P, P) := by
    simp only [TTable.store, TTable.store_entry]
    rw [hSC, hst, hF, hPd]
    simp
  simp only [TTable.fetch]
  rw [hidx, hent]
  simp only [nat_xor_cancel]
  rw [if_neg]
  · rw [Option.some_inj]
    show TTData.mk _ _ _ _ _ = _
    rw [heval, hscore, hmvf, hdep, hflg]
  · intro hcon
    rcases hcon with hcon | hcon
    · exact hcon rfl
    · rw [htf] at hcon
      exact hflag hcon

/-- C2 (amended general law): a non-negative mate score s stored at ply p and
    fetched at ply q comes back as s + p − q: the node-relative mate distance
    is preserved, so a score meaning mate in k plies beyond the storing node
    means mate in k plies beyond the fetching node. -/
theorem C2_tt_mate_rebase (t : TTable) (hash depth p q : Nat) (eval s : Int)
    (mv : Option Move) (flag : TTFlag) (pv : Bool)
    (hd : depth ≤ 255) (hage : t.ageT ≤ 31)
    (he1 : -32768 ≤ eval) (he2 : eval ≤ 32767)
    (hpos : 0 ≤ s) (hs2 : s ≤ 32767)
    (hmate : Score.is_mate s = true)
    (hsp : s + p ≤ Score.MIN_MATE)
    (hp2 : p ≤ 32767) (hq2 : q ≤ 32767)
    (hmv : mv = none ∨ (0 < mv.getD 0 ∧ mv.getD 0 < 65536))
    (hflag : flag ≠ TTFlag.None) :
    ((t.store hash depth p eval s mv flag pv).fetch hash q).map TTData.score =
      some (s + p - q) := by
  rw [TTable.store_fetch t hash depth p q eval s mv flag pv hd hage he1 he2
    (by omega) hs2 hmv hflag]
  have hMIN : Score.MIN_MATE = 32511 := by decide
  have hMAX : Score.MAX_MATE = 32255 := by decide
  have habs : Score.abs16 s = s := by
    unfold Score.abs16
    rw [abs_of_nonneg hpos]
    exact wrap16_eq_of s (by omega) hs2
  have hm : Score.MAX_MATE ≤ s ∧ s ≤ Score.MIN_MATE := by
    simpa only [Score.is_mate, habs, decide_eq_true_eq] using hmate
  rw [hMIN] at hsp
  rw [hMIN, hMAX] at hm
  have hstt : TTable.score_to_tt s p = s + p := by
    unfold TTable.score_to_tt
    rw [if_neg (by simp [hmate]), if_neg (by omega)]
    rw [wrap16_eq_of (p : Int) (by omega) (by omega)]
    exact wrap16_eq_of _ (by omega) (by omega)
  rw [hstt]
  have hmate2 : Score.is_mate (s + p) = true := by
    have habs2 : Score.abs16 (s + p) = s + p := by
      unfold Score.abs16
      rw [abs_of_nonneg (by omega)]
      exact wrap16_eq_of _ (by omega) (by omega)
    simp only [Score.is_mate, habs2, decide_eq_true_eq, hMIN, hMAX]
    omega
  have htts : TTable.tt_to_score (s + p) q = s + p - q := by
    unfold TTable.tt_to_score
    rw [if_neg (by simp [hmate2]), if_neg (by omega)]
    rw [wrap16_eq_of (q : Int) (by omega) (by omega)]
    exact wrap16_eq_of _ (by omega) (by omega)
  rw [htts]
  rfl

/-- Storing the mate score of ply 15 at ply 10 and fetching at ply 2 returns
    the mate score of ply 7 (= 15 + 10 − 2 ... rebased), the concrete instance of the
    amended mate fix-up law. -/
theorem C2_tt_mate_rebase_witness :
    (Score.new_mate 15 + 10 - 2 = Score.new_mate 7 ∧ (0:Int) ≤ Score.new_mate 15 ∧
      Score.is_mate (Score.new_mate 15) = true ∧
      Score.new_mate 15 + 10 ≤ Score.MIN_MATE) ∧
      (((TTable.newTT 1).store 12345 3 10 0 (Score.new_mate 15) none TTFlag.Exact
        false).fetch 12345 2).map TTData.score = some (Score.new_mate 15 + 10 - 2) :=
  ⟨by decide, C2_tt_mate_rebase (TTable.newTT 1) 12345 3 10 2 0 (Score.new_mate 15) none
    TTFlag.Exact false (by decide) (by decide) (by decide) (by decide) (by decide)
    (by decide) (by decide) (by decide) (by decide) (by decide) (Or.inl rfl)
    (by decide)⟩

/-- C5 (amended): store always replaces the indexed entry — a fetch with the
    same hash returns exactly the newly stored depth, eval, score and flag,
    whatever the slot held before — but the one-bit PV flag of the stored
    entry is the `pv` argument of the store call, not the older entry's (only
    the move falls back to the older entry). -/
theorem C5_store_always_replaces (t : TTable) (hash depth p : Nat) (eval score : Int)
    (mv : Option Move) (flag : TTFlag) (pv : Bool)
    (hd : depth ≤ 255) (hage : t.ageT ≤ 31)
    (he1 : -32768 ≤ eval) (he2 : eval ≤ 32767)
    (hs1 : -32768 ≤ score) (hs2 : score ≤ 32767)
    (hmv : mv = none ∨ (0 < mv.getD 0 ∧ mv.getD 0 < 65536))
    (hflag : flag ≠ TTFlag.None) :
    (t.store hash depth p eval score mv flag pv).fetch hash p =
      some { eval := eval
             score := TTable.tt_to_score (TTable.score_to_tt score p) p
             mv := mv.orElse (fun _ => (t.fetch hash p).bind (fun d => d.mv))
             depth := depth
             flags := Flags.newF t.ageT pv flag } ∧
      ((t.store hash depth p eval score mv flag pv).fetch hash p).map
        (fun d => d.flags.pv) = some pv := by
  have h := TTable.store_fetch t hash depth p p eval score mv flag pv hd hage he1 he2
    hs1 hs2 hmv hflag
  refine ⟨h, ?_⟩
  rw [h]
  simp [flags_newF_pv]

/-- A concrete instance of the amended store/fetch law: the slot at hash 99
    already holds a pv=true entry, and a second store with pv=false replaces
    every field, the PV bit included. -/
theorem C5_store_always_replaces_witness :
    ((TTable.newTT 1).store 99 5 0 0 0 (some 77) TTFlag.Exact true).ageT ≤ 31 ∧
      ((((TTable.newTT 1).store 99 5 0 0 0 (some 77) TTFlag.Exact true).store 99 4 0 1 2
          (some 78) TTFlag.Lower false).fetch 99 0 =
        some { eval := 1
               score := TTable.tt_to_score (TTable.score_to_tt 2 0) 0
               mv := (some 78).orElse (fun _ =>
                 (((TTable.newTT 1).store 99 5 0 0 0 (some 77) TTFlag.Exact
                   true).fetch 99 0).bind (fun d => d.mv))
               depth := 4
               flags := Flags.newF ((TTable.newTT 1).store 99 5 0 0 0 (some 77)
                 TTFlag.Exact true).ageT false TTFlag.Lower } ∧
        ((((TTable.newTT 1).store 99 5 0 0 0 (some 77) TTFlag.Exact true).store 99 4 0 1 2
          (some 78) TTFlag.Lower false).fetch 99 0).map (fun d => d.flags.pv) =
          some false) :=
  ⟨by decide, C5_store_always_replaces
    ((TTable.newTT 1).store 99 5 0 0 0 (some 77) TTFlag.Exact true) 99 4 0 1 2
    (some 78) TTFlag.Lower false (by decide) (by decide) (by decide) (by decide)
    (by decide) (by decide) (Or.inr (by decide)) (by decide)⟩

/-! ## read_fen clock lemmas -/

lemma read_fen_finish_clock (b : Board) (hmc fmc : String) (b' : Board)
    (h : Board.read_fen_finish b hmc fmc = some b') : b'.halfmove_clock ≤ 99 := by
  unfold Board.read_fen_finish at h
  split at h
  · exact absurd h (by simp)
  · rename_i hv
    split at h
    · exact absurd h (by simp)
    · rename_i hlt
      split at h
      · exact absurd h (by simp)
      · rw [Option.some_inj] at h
        subst h
        simp only [Board.calc_threats_halfmove]
        omega

lemma read_fen_clock (z : Zobrist) (fen : String) (b : Board)
    (h : Board.read_fen z fen = some b) : b.halfmove_clock ≤ 99 := by
  unfold Board.read_fen at h
  dsimp only [] at h
  split at h
  all_goals try exact Option.noConfusion h
  rw [Option.bind_eq_bind', Option.bind_eq_some'] at h
  obtain ⟨d0, hfold, h⟩ := h
  split at h
  · exact absurd h (by simp)
  split at h
  · exact absurd h (by simp)
  split at h
  all_goals try exact Option.noConfusion h
  all_goals
    rw [Option.bind_eq_bind', Option.bind_eq_some'] at h
    obtain ⟨y, hy, h⟩ := h
    rw [Option.bind_eq_bind', Option.bind_eq_some'] at h
    obtain ⟨b1, hcas, h⟩ := h
    rw [Option.bind_eq_bind', Option.bind_eq_some'] at h
    obtain ⟨b2, hep, h⟩ := h
    exact read_fen_finish_clock _ _ _ _ h

/-! ## UCI move-loop lemmas -/

lemma apply_moves_spec (z : Zobrist) (c960 : Bool) (b : Board) (toks : List String) :
    Uci.apply_moves z c960 b toks =
      match Spec.first_illegal z c960 b toks with
      | some t => Except.error (UciParseError.InvalidMove t)
      | none => Except.ok (Spec.played_moves z c960 b toks) := by
  induction toks generalizing b with
  | nil => rfl
  | cons t rest ih =>
    simp only [Uci.apply_moves, Spec.first_illegal, Spec.played_moves]
    cases hpm : b.parse_move t c960 with
    | none => rfl
    | some mv =>
      by_cases hl : b.is_legal mv = true
      · simp only [hl, not_true_eq_false, if_false, ih (b.make_move z mv)]
        cases hfi : Spec.first_illegal z c960 (b.make_move z mv) rest <;> simp
      · simp only [Bool.not_eq_true] at hl
        simp [hl]

lemma parse_searchmoves_spec (b : Board) (c960 : Bool) (toks : List String) :
    Uci.parse_searchmoves b c960 toks =
      match Spec.first_illegal_fixed b c960
        (toks.takeWhile (fun t => !decide (t ∈ Uci.keywords))) with
      | some t => Except.error (UciParseError.InvalidMove t)
      | none => Except.ok (Spec.searchmoves_moves b c960
          (toks.takeWhile (fun t => !decide (t ∈ Uci.keywords))),
          toks.dropWhile (fun t => !decide (t ∈ Uci.keywords))) := by
  induction toks with
  | nil => rfl
  | cons t rest ih =>
    simp only [List.takeWhile_cons, List.dropWhile_cons]
    by_cases hk : t ∈ Uci.keywords
    · simp [Uci.parse_searchmoves, hk, Spec.first_illegal_fixed, Spec.searchmoves_moves]
    · simp only [Uci.parse_searchmoves]
      simp only [hk, decide_False, Bool.not_false, if_true, if_false]
      simp [hk]
      cases hpm : b.parse_move t c960 with
      | none => simp [Spec.first_illegal_fixed, hpm]
      | some mv =>
        by_cases hl : b.is_legal mv = true
        · simp only [hpm, hl, Bool.true_eq_false, if_false, ih]
          cases hfi : Spec.first_illegal_fixed b c960
              (rest.takeWhile (fun t => !decide (t ∈ Uci.keywords))) <;>
            simp [Spec.first_illegal_fixed, Spec.searchmoves_moves, hpm, hl, hfi]
        · have hl2 : b.is_legal mv = false := by simpa using hl
          simp [Spec.first_illegal_fixed, hpm, hl2]

/-- C4: after make_move of a move from an occupied square: the halfmove clock
    resets to 0 on pawn moves and non-castle captures and increments
    otherwise; the fullmove number increments exactly after a Black move; the
    side to move is toggled; and the result is independent of any previously
    set en-passant descriptor, which set_en_passant(None) clears with its
    Zobrist term XORed out of the hash. -/
theorem C4_make_move_counters (z : Zobrist) (b : Board) (mv : Move) (p : Piece)
    (hp : b.piece_on mv.src = some p)
    (hclk : b.halfmove_clock ≤ 254) (hfmc : b.fullmove_count ≤ 65534) :
    (b.make_move z mv).halfmove_clock =
      (if p = Piece.Pawn ∨ ((b.piece_on mv.dst).isSome ∧ mv.flag ≠ MoveFlag.Castle)
        then 0 else b.halfmove_clock + 1) ∧
    (b.make_move z mv).fullmove_count =
      b.fullmove_count + (if b.stm = Color.Black then 1 else 0) ∧
    (b.make_move z mv).stm = b.stm.invert ∧
    (b.set_en_passant z none).make_move z mv = b.make_move z mv ∧
    (b.set_en_passant z none).en_passant = none ∧
    (b.set_en_passant z none).hash = Nat.xor b.hash
      (match b.en_passant with
        | some old => z.en_passant old.file
        | none => 0) := by
  refine ⟨?_, ?_, Board.make_move_stm z b mv p hp,
    Board.make_move_ep_independent z b mv p hp, Board.set_en_passant_ep z b none,
    Board.set_en_passant_none_hash z b⟩
  · rw [Board.make_move_halfmove z b mv p hp]
    split_ifs <;> omega
  · rw [Board.make_move_fullmove z b mv p hp]
    split_ifs <;> omega

/-- The bookkeeping law of make_move at a concrete instance: the double pawn
    push e2e4 from the start position toggles the side to move. -/
theorem C4_make_move_counters_witness :
    (Board.start_pos Zobrist.ZOBRIST).piece_on
        (Move.new ⟨12, by omega⟩ ⟨28, by omega⟩ MoveFlag.None).src = some Piece.Pawn ∧
      ((Board.start_pos Zobrist.ZOBRIST).make_move Zobrist.ZOBRIST
          (Move.new ⟨12, by omega⟩ ⟨28, by omega⟩ MoveFlag.None)).stm =
        (Board.start_pos Zobrist.ZOBRIST).stm.invert :=
  ⟨by decide, (C4_make_move_counters Zobrist.ZOBRIST (Board.start_pos Zobrist.ZOBRIST)
    (Move.new ⟨12, by omega⟩ ⟨28, by omega⟩ MoveFlag.None) Piece.Pawn (by decide)
    (by decide) (by decide)).2.2.1⟩

/-- C7: for a `go` command setting the side-to-move clock and increment,
    TimeManager::init computes hard = min(time/2, time − overhead) and
    soft = min(hard, time/64 − overhead + inc), subtraction saturating at 0. -/
theorem C7_time_budgets (stm : Color) (time inc mo : Nat)
    (ht : time < 2 ^ 64) (hmo : mo ≤ 65535) (hinc : time / 64 + inc < 2 ^ 64) :
    (TimeManager.init
        (match stm with
          | Color.White => [SearchLimit.WhiteTime time, SearchLimit.WhiteInc inc]
          | Color.Black => [SearchLimit.BlackTime time, SearchLimit.BlackInc inc])
        stm mo false).hard_time = min (time / 2) (time - mo) ∧
    (TimeManager.init
        (match stm with
          | Color.White => [SearchLimit.WhiteTime time, SearchLimit.WhiteInc inc]
          | Color.Black => [SearchLimit.BlackTime time, SearchLimit.BlackInc inc])
        stm mo false).soft_time =
      min (min (time / 2) (time - mo)) (time / 64 - mo + inc) := by
  cases stm <;>
    · constructor <;>
      · simp only [TimeManager.init, List.foldl_cons, List.foldl_nil, TimeManager.satSub,
          TimeManager.satMul, U64MASK]
        simp
        omega

/-- The time budgets at a concrete `go wtime 10000 winc 100` with a 20 ms
    overhead. -/
theorem C7_time_budgets_witness :
    (TimeManager.init [SearchLimit.WhiteTime 10000, SearchLimit.WhiteInc 100]
        Color.White 20 false).hard_time = min (10000 / 2) (10000 - 20) ∧
      (TimeManager.init [SearchLimit.WhiteTime 10000, SearchLimit.WhiteInc 100]
        Color.White 20 false).soft_time =
        min (min (10000 / 2) (10000 - 20)) (10000 / 64 - 20 + 100) :=
  C7_time_budgets Color.White 10000 100 20 (by decide) (by decide) (by decide)

/-- C8: a move token of `position … moves` that fails to parse or is illegal
    on the evolving board makes the parser return InvalidMove with that
    token's text (and no command); a searchmoves token is checked the same
    way against the root board; when all tokens are legal, exactly those
    moves are produced. -/
theorem C8_invalid_moves (z : Zobrist) (c960 : Bool) :
    (∀ (b : Board) (toks : List String),
      Uci.apply_moves z c960 b toks =
        match Spec.first_illegal z c960 b toks with
        | some t => Except.error (UciParseError.InvalidMove t)
        | none => Except.ok (Spec.played_moves z c960 b toks)) ∧
    (∀ (b : Board) (toks : List String),
      Uci.parse_searchmoves b c960 toks =
        match Spec.first_illegal_fixed b c960
          (toks.takeWhile (fun t => !decide (t ∈ Uci.keywords))) with
        | some t => Except.error (UciParseError.InvalidMove t)
        | none => Except.ok (Spec.searchmoves_moves b c960
            (toks.takeWhile (fun t => !decide (t ∈ Uci.keywords))),
            toks.dropWhile (fun t => !decide (t ∈ Uci.keywords)))) ∧
    (∀ (sp : Board) (toks : List String),
      Uci.position_moves z c960 sp ("moves" :: toks) =
        match Spec.first_illegal z c960 sp toks with
        | some t => Except.error (UciParseError.InvalidMove t)
        | none => Except.ok (UciCommand.Position sp (Spec.played_moves z c960 sp toks))) :=
  ⟨fun b toks => apply_moves_spec z c960 b toks,
   fun b toks => parse_searchmoves_spec b c960 toks,
   fun sp toks => by
     simp only [Uci.position_moves]
     rw [if_neg (by simp)]
     rw [apply_moves_spec]
     cases hfi : Spec.first_illegal z c960 sp toks <;> simp⟩

/-- C9 (amended sources): a successful read_fen always returns a board with
    halfmove clock at most 99, and make_move resets the clock to 0 on pawn
    moves and non-castle captures and otherwise increments it by one (mod
    256) — so the clock is not bounded by 100 across make_move calls. -/
theorem C9_halfmove_clock_sources (z : Zobrist) :
    (∀ fen b, Board.read_fen z fen = some b → b.halfmove_clock ≤ 99) ∧
    (∀ (b : Board) (mv : Move) (p : Piece), b.piece_on mv.src = some p →
      (b.make_move z mv).halfmove_clock =
        if p = Piece.Pawn ∨ ((b.piece_on mv.dst).isSome ∧ mv.flag ≠ MoveFlag.Castle)
          then 0 else (b.halfmove_clock + 1) % 256) :=
  ⟨fun fen b h => read_fen_clock z fen b h,
    fun b mv p hp => Board.make_move_halfmove z b mv p hp⟩

/-- The read_fen clock bound at a concrete input: the clock-99 FEN parses to
    a board whose clock is within the bound. -/
theorem C9_halfmove_clock_sources_witness :
    ((Board.read_fen Zobrist.ZOBRIST "k7/8/8/8/8/8/8/K7 w - - 99 80").map
      Board.halfmove_clock).getD 0 ≤ 99 := by
  have hs : (Board.read_fen Zobrist.ZOBRIST "k7/8/8/8/8/8/8/K7 w - - 99 80").isSome
      = true := by decide
  obtain ⟨b, hb⟩ := Option.isSome_iff_exists.mp hs
  rw [hb]
  simpa using (C9_halfmove_clock_sources Zobrist.ZOBRIST).1 _ b hb

/-- C1: in a position satisfying the data-model invariants (Black rook b6
    checking the white king h6 along the sixth rank, en-passant available on
    the d-file), the en-passant capture e5xd6 blocks the check: gen_moves
    emits it, but is_legal rejects it, refuting "is_legal(mv) returns exactly
    mv ∈ gen_all_moves()". -/
theorem C1_is_legal_vs_gen_moves :
    ((Board.read_fen Zobrist.ZOBRIST "k7/8/1r5K/3pP3/8/8/8/8 w - d6 0 2").map (fun b =>
      (Spec.invariants_ok Zobrist.ZOBRIST b,
        b.gen_all_moves.contains (Move.new ⟨36, by omega⟩ ⟨43, by omega⟩ MoveFlag.EnPassant),
        b.is_legal (Move.new ⟨36, by omega⟩ ⟨43, by omega⟩ MoveFlag.EnPassant)))) =
      some (true, true, false) := by decide

/-- C3: after a successful read_fen of a position where the side to move is
    in check by a knight, the en-passant descriptor is still set (calc_ep_file
    only scans for slider exposure), yet no en-passant capture is legal: the
    claimed invariant fails at a public entry point. -/
theorem C3_ep_invariant_violated :
    ((Board.read_fen Zobrist.ZOBRIST "k7/8/8/3pP3/8/8/4n3/6K1 w - d6 0 2").map (fun b =>
      (b.en_passant, Spec.ep_invariant Zobrist.ZOBRIST b,
        Spec.ep_bits_exact Zobrist.ZOBRIST b, BB.popcnt b.checkers))) =
      some (some 19, false, false, 1) := by decide

/-- C9 (counterexample): a FEN with halfmove clock 99 passes read_fen, and two
    legal quiet king moves drive the clock to 101, above the claimed bound of
    100 (the final board fails the spec's invariant bundle). -/
theorem C9_clock_101_reachable :
    ((Board.read_fen Zobrist.ZOBRIST "k7/8/8/8/8/8/8/K7 w - - 99 80").map (fun b =>
      let mv1 := Move.new ⟨0, by omega⟩ ⟨1, by omega⟩ MoveFlag.None
      let b1 := b.make_move Zobrist.ZOBRIST mv1
      let mv2 := Move.new ⟨56, by omega⟩ ⟨57, by omega⟩ MoveFlag.None
      let b2 := b1.make_move Zobrist.ZOBRIST mv2
      (b.is_legal mv1, b1.is_legal mv2, b2.halfmove_clock,
        Spec.invariants_ok Zobrist.ZOBRIST b2))) =
      some (true, true, 101, false) := by decide

/-- C2 (counterexample): storing the mate score of ply 15 (mate in 5 plies
    beyond a node at ply 10) and fetching at ply 10 returns it unchanged;
    fetching the same entry at ply 2 yields the mate score of ply 7 — five
    plies beyond the reading node — not a score representing mate-in-13. -/
theorem C2_fetch_ply2_not_mate13 :
    (let t := (TTable.newTT 1).store 12345 3 10 0 (Score.new_mate 15) none
      TTFlag.Exact false
    ((t.fetch 12345 10).map TTData.score = some (Score.new_mate 15) ∧
      (t.fetch 12345 2).map TTData.score = some (Score.new_mate 7) ∧
      (t.fetch 12345 2).map TTData.score ≠ some (Score.new_mate 13))) := by decide

/-- C5 (counterexample): the PV flag of a stored entry is the `pv` argument of
    the store call, not the older entry's: storing with pv=true then storing
    the same slot with pv=false leaves pv=false. -/
theorem C5_pv_not_preserved :
    (let t1 := (TTable.newTT 1).store 99 5 0 0 0 (some 77) TTFlag.Exact true
    let t2 := t1.store 99 5 0 0 0 (some 77) TTFlag.Exact false
    ((t1.fetch 99 0).map (fun d => d.flags.pv) = some true ∧
      (t2.fetch 99 0).map (fun d => d.flags.pv) = some false)) := by decide

/-- C10: a move carrying the Castle flag is answered by cmp_see without any
    exchange simulation: the result is exactly `threshold ≤ 0`. -/
theorem C10_castle_cmp_see (pos : Position) (mv : Move) (t : Int)
    (h : mv.flag = MoveFlag.Castle) :
    pos.cmp_see mv t = decide (t ≤ 0) := by
  simp [Position.cmp_see, h]

/-- A concrete instance of the castle short-circuit of cmp_see: threshold 1
    on an empty-board position gives false. -/
theorem C10_castle_cmp_see_witness :
    (Move.new ⟨4, by omega⟩ ⟨7, by omega⟩ MoveFlag.Castle).flag = MoveFlag.Castle ∧
      (Position.mk Board.empty_board [] []).cmp_see
        (Move.new ⟨4, by omega⟩ ⟨7, by omega⟩ MoveFlag.Castle) 1 = decide ((1 : Int) ≤ 0) :=
  ⟨by decide, C10_castle_cmp_see (Position.mk Board.empty_board [] [])
    (Move.new ⟨4, by omega⟩ ⟨7, by omega⟩ MoveFlag.Castle) 1 (by decide)⟩

end Icarus
